import Mathlib

/-!
# ocr-based-qwen: the relay server `server.js`

A shallow embedding of the four request handlers of `server.js`
(`handleImageUrlRecognition`, `handleBase64Recognition`, `handleFileRecognition`,
`handleProxyUpload`) and of the routine they share, `recognizeImage`, followed by
theorems about them.

Modelling choices.

* A JavaScript string is a `Str`, a list of Unicode characters. `jsLength` is the
  JavaScript `.length` (UTF-16 code units: two for a character beyond the basic
  plane). Every regular expression of the source is written without the `u` flag and
  mentions basic-plane characters only, so matching per character and per code unit
  agree. Strings holding unpaired surrogates are outside the model.
* `fetch` is the field `fetch` of a `World`: a function from the outbound call to
  either the message of the error it rejects with or the `Reply` received. A handler
  is a function to the pair of the HTTP response it sends and the list of the
  outbound calls it made, in order.
* The JSON a handler reads is reduced to the fields read (`Data`), each a string or
  missing; values of other JSON types are outside the model.
* `req.body` is an object with the fields read (`RequestBody`), or undefined
  (`none`): the body parsers of Express 5 leave it undefined when they parsed no body,
  those of Express 4 always set an object. Destructuring an undefined `req.body`
  throws a `TypeError`, whose message is a field of the `World`.
-/

namespace OcrQwen

/-- A JavaScript string. -/
abbrev Str := List Char

/-- The JavaScript `.length` of a string: its number of UTF-16 code units. -/
def jsLength (s : Str) : Nat :=
  (s.map fun c => if c.toNat < 0x10000 then 1 else 2).sum

/-- The JavaScript `a || b` on strings: `b` when `a` is the empty string. -/
def orElse (a b : Str) : Str :=
  if a = [] then b else a

/-- Truthiness of a value that is a string or missing: present and non-empty. -/
def truthy : Option Str → Bool
  | some (_ :: _) => true
  | _ => false

/-! ## Regular expressions of the source -/

/-- The class `\s` of a JavaScript regular expression, which is also the set of
characters `String.prototype.trim` strips: WhiteSpace and LineTerminator. -/
def isWs (c : Char) : Bool :=
  c = '\t' || c = '\n' || c.toNat = 0x0B || c.toNat = 0x0C || c = '\r' || c = ' ' ||
  c.toNat = 0xA0 || c.toNat = 0x1680 || (0x2000 ≤ c.toNat && c.toNat ≤ 0x200A) ||
  c.toNat = 0x2028 || c.toNat = 0x2029 || c.toNat = 0x202F || c.toNat = 0x205F ||
  c.toNat = 0x3000 || c.toNat = 0xFEFF

/-- The class `[A-Za-z0-9]`. -/
def isAlnum (c : Char) : Bool :=
  ('A' ≤ c && c ≤ 'Z') || ('a' ≤ c && c ≤ 'z') || ('0' ≤ c && c ≤ '9')

/-- The test `/^[A-Za-z0-9]+$/.test(s)`: `s` is non-empty and all of it is in the
class (without the `m` flag, `$` is the end of the input only). -/
def testAlnum (s : Str) : Bool :=
  !s.isEmpty && s.all isAlnum

/-- `String.prototype.toUpperCase` on the ASCII range: the letters `a`-`z` become
`A`-`Z`, every other character is kept (`Char.toUpper`). The one call site applies it
to strings that passed `testAlnum`. -/
def toUpperCase (s : Str) : Str :=
  s.map Char.toUpper

/-- The loop of `s.replace(/re/g, rep)` for a regular expression that matches no
empty string. `m t` is the length of the match of `re` that starts at the first
character of `t`, if there is one. The first argument counts the characters of the
current match still to be consumed; at `0` the scan tries a match at the current
position, emits `rep` for a match and the character itself otherwise. -/
def replaceGo (m : Str → Option Nat) (rep : Str) : Nat → Str → Str
  | _, [] => []
  | k + 1, _ :: rest => replaceGo m rep k rest
  | 0, c :: rest =>
    match m (c :: rest) with
    | some (n + 1) => rep ++ replaceGo m rep n rest
    | _ => c :: replaceGo m rep 0 rest

/-- The call `s.replace(/re/g, rep)`, the regular expression given by `m`. -/
def replaceAll (m : Str → Option Nat) (rep : Str) (s : Str) : Str :=
  replaceGo m rep 0 s

/-- Match of `/\\p/` at the start of the string, for a character `p`: a backslash
followed by `p`. -/
def matchEscaped (p : Char) : Str → Option Nat
  | c :: d :: _ => if c = '\\' ∧ d = p then some 2 else none
  | _ => none

/-- Match of `/\n{3,}/` at the start of the string: the whole run of newlines, when
it has three or more. -/
def matchNewlines (s : Str) : Option Nat :=
  let k := (s.takeWhile (· = '\n')).length
  if 3 ≤ k then some k else none

/-- Match of `/\$\s+/` at the start of the string: a dollar sign and the whole run
of whitespace after it, which is not empty. -/
def matchDollarSpaces : Str → Option Nat
  | c :: rest =>
    let k := (rest.takeWhile isWs).length
    if c = '$' ∧ 1 ≤ k then some (k + 1) else none
  | [] => none

/-- Match of `/\s+\$/` at the start of the string: a non-empty run of whitespace
followed by a dollar sign. The greedy `\s+` takes the whole run; backtracking to a
shorter run leaves a whitespace character, not a dollar sign, as the next one. -/
def matchSpacesDollar (s : Str) : Option Nat :=
  let k := (s.takeWhile isWs).length
  if 1 ≤ k ∧ (s.drop k).head? = some '$' then some (k + 1) else none

/-- `String.prototype.trim`. -/
def trim (s : Str) : Str :=
  ((s.dropWhile isWs).reverse.dropWhile isWs).reverse

/-- The chain of cleanups of the text branch of `recognizeImage`:
`.replace(/\\（/g, '\\(').replace(/\\）/g, '\\)').replace(/\n{3,}/g, '\n\n')`
`.replace(/\$\s+/g, '$').replace(/\s+\$/g, '$').trim()`. -/
def cleanup (result : Str) : Str :=
  trim
    (replaceAll matchSpacesDollar ['$']
      (replaceAll matchDollarSpaces ['$']
        (replaceAll matchNewlines ['\n', '\n']
          (replaceAll (matchEscaped '）') ['\\', ')']
            (replaceAll (matchEscaped '（') ['\\', '('] result)))))

/-- Match of `/token=([^;]+)/` at the start of the string: the capture group. -/
def tokenAt (s : Str) : Option Str :=
  if "token=".toList.isPrefixOf s then
    let v := (s.drop 6).takeWhile (· ≠ ';')
    if v = [] then none else some v
  else none

/-- The capture group of `cookie.match(/token=([^;]+)/)`: the leftmost position
where the expression matches decides. -/
def tokenMatch : Str → Option Str
  | [] => none
  | c :: rest =>
    match tokenAt (c :: rest) with
    | some v => some v
    | none => tokenMatch rest

/-! ## Requests, responses and the outside world -/

/-- The object `req.body`, as far as the handlers read it. -/
structure RequestBody where
  /-- Field `imageUrl`. -/
  imageUrl : Option Str
  /-- Field `base64Image`. -/
  base64Image : Option Str
  /-- Field `imageId`. -/
  imageId : Option Str

/-- The parts of an incoming request the handlers read. -/
structure Request where
  /-- Header `x-custom-cookie`. -/
  cookie : Option Str
  /-- Header `x-advanced-mode`. -/
  advancedMode : Option Str
  /-- Header `x-custom-prompt`. -/
  customPrompt : Option Str
  /-- The value `req.body`: `none` when it is undefined. -/
  body : Option RequestBody
  /-- The uploaded file `req.file`, named by its original name. -/
  file : Option Str

/-- An outbound request. The bytes uploaded are named by where they come from. -/
inductive Call
  /-- Fetching the image at `imageUrl`. -/
  | download (url : Str)
  /-- The POST to the file-upload endpoint, with its bearer token and cookie. -/
  | upload (token cookie payload : Str)
  /-- The POST to the chat-completion endpoint. -/
  | chat (token cookie prompt imageId : Str)
  deriving DecidableEq

/-- The fields read from the JSON of a reply. -/
structure Data where
  /-- Field `id`. -/
  id : Option Str
  /-- The value of `data?.choices?.[0]?.message?.content`. -/
  content : Option Str
  deriving DecidableEq

/-- A reply received from `fetch`. -/
structure Reply where
  /-- Field `response.ok`. -/
  ok : Bool
  /-- Field `response.status`. -/
  status : Nat
  /-- Field `response.statusText`. -/
  statusText : Str
  /-- What `await response.text()` gives. -/
  text : Str
  /-- What `await response.json()` gives: the message of the error thrown or the
  data. -/
  json : Except Str Data

/-- The environment of a handler. -/
structure World where
  /-- The global `fetch`: the message of the rejection, or the reply. -/
  fetch : Call → Except Str Reply
  /-- The decoding `Buffer.from(x, 'base64').toString('utf-8')`. -/
  base64Decode : Str → Str
  /-- The message of the `TypeError` thrown by `const { field } = req.body` when
  `req.body` is undefined, by the name of the field. -/
  typeErrorMessage : Str → Str

/-- The JSON body of a response. -/
inductive Body
  /-- The object with the one field `error`. -/
  | error (error : Str)
  /-- The object with `success: false` and `error`. -/
  | failure (error : Str)
  /-- The object with `success: true`, `result` and `type`. -/
  | recognized (result type : Str)
  /-- The JSON of the upload endpoint, passed on as it is. -/
  | forwarded (data : Data)
  deriving DecidableEq

/-- The response a handler sends. -/
structure Response where
  /-- HTTP status. -/
  status : Nat
  /-- JSON body. -/
  body : Body
  deriving DecidableEq

/-! ## `recognizeImage` -/

/-- The failure sentinel. -/
def sentinel : Str := "识别失败".toList

/-- The constant `defaultPrompt` of `recognizeImage`. -/
def defaultPrompt : Str :=
  ("不要输出任何额外的解释或说明,禁止输出例如：识别内容、以上内容已严格按照要求进行格式化和转换等相关无意义的文字！" ++
    "请识别图片中的内容，注意以下要求：\n" ++
    "对于数学公式和普通文本：\n" ++
    "1. 所有数学公式和数学符号都必须使用标准的LaTeX格式\n" ++
    "2. 行内公式使用单个$符号包裹，如：$x^2$\n" ++
    "3. 独立公式块使用两个$$符号包裹，如：$$\\sum_\x7bi=1\x7d^n i^2$$\n" ++
    "4. 普通文本保持原样，不要使用LaTeX格式\n" ++
    "5. 保持原文的段落格式和换行\n" ++
    "6. 明显的换行使用\\n表示\n" ++
    "7. 确保所有数学符号都被正确包裹在$或$$中\n\n" ++
    "对于验证码图片：\n" ++
    "1. 只输出验证码字符，不要加任何额外解释\n" ++
    "2. 忽略干扰线和噪点\n" ++
    "3. 注意区分相似字符，如0和O、1和l、2和Z等\n" ++
    "4. 验证码通常为4-6位字母数字组合\n\n" ++
    "").toList

/-- The flag `advancedMode`: `req.get('x-advanced-mode') === 'true'`. -/
def advancedMode (req : Request) : Bool :=
  req.advancedMode == some "true".toList

/-- The variable `customPrompt`: empty unless the header `x-custom-prompt` is present
and non-empty, then its decoding. -/
def customPrompt (w : World) (req : Request) : Str :=
  match req.customPrompt with
  | some (c :: rest) => w.base64Decode (c :: rest)
  | _ => []

/-- The constant `finalPrompt`: `advancedMode && customPrompt ? customPrompt : defaultPrompt`. -/
def finalPrompt (w : World) (req : Request) : Str :=
  if advancedMode req = true ∧ customPrompt w req ≠ [] then customPrompt w req
  else defaultPrompt

/-- The classification step of `recognizeImage`, from `let result = ...` to the
`res.json` call: the pair of `result` and `responseType`. -/
def formatResult (advanced : Bool) (content : Option Str) : Str × Str :=
  let result := orElse (content.getD []) sentinel
  if advanced = false then
    if result ≠ sentinel ∧ jsLength result ≤ 10 ∧ testAlnum result = true then
      (toUpperCase result, "captcha".toList)
    else if result ≠ sentinel then
      (cleanup result, "text".toList)
    else (result, "text".toList)
  else (result, "text".toList)

/-- The response of the `catch` block of `recognizeImage`. -/
def recognitionFailed (message : Str) : Response :=
  ⟨500, .failure (orElse message "Recognition failed".toList)⟩

/-- The request `recognizeImage` sends to the chat-completion endpoint: the bearer
token, the cookie `req.get('x-custom-cookie') || ''`, the prompt and the image. -/
def chatCall (w : World) (token imageId : Str) (req : Request) : Call :=
  .chat token (orElse (req.cookie.getD []) []) (finalPrompt w req) imageId

/-- The function `recognizeImage(token, imageId, req, res)`. -/
def recognizeImage (w : World) (token imageId : Str) (req : Request) :
    Response × List Call :=
  let call := chatCall w token imageId req
  match w.fetch call with
  | .error message => (recognitionFailed message, [call])
  | .ok response =>
    if response.ok = false then
      (recognitionFailed ("Qwen API request failed: ".toList ++ response.statusText ++
        " - ".toList ++ response.text), [call])
    else
      match response.json with
      | .error message => (recognitionFailed message, [call])
      | .ok data =>
        let r := formatResult (advancedMode req) data.content
        (⟨200, .recognized r.1 r.2⟩, [call])

/-! ## The four handlers -/

/-- The response of the `catch` block of a handler, with its fallback message. -/
def handlerFailed (message fallback : Str) : Response :=
  ⟨500, .error (orElse message fallback)⟩

/-- The error response with status 400. -/
def badRequest (message : String) : Response :=
  ⟨400, .error message.toList⟩

/-- The upload to the file endpoint shared by `handleImageUrlRecognition` and
`handleBase64Recognition`, and what follows it: the check of the reply, the check of
`uploadData.id`, the call of `recognizeImage`. -/
def uploadAndRecognize (w : World) (token cookie payload : Str) (req : Request)
    (before : List Call) : Response × List Call :=
  let call := Call.upload token cookie payload
  let fallback := "Internal Server Error".toList
  match w.fetch call with
  | .error message => (handlerFailed message fallback, before ++ [call])
  | .ok uploadResponse =>
    if uploadResponse.ok = false then
      (handlerFailed ("File upload failed: ".toList ++ uploadResponse.statusText ++
        " - ".toList ++ uploadResponse.text) fallback, before ++ [call])
    else
      match uploadResponse.json with
      | .error message => (handlerFailed message fallback, before ++ [call])
      | .ok uploadData =>
        match uploadData.id with
        | some (c :: rest) =>
          let r := recognizeImage w token (c :: rest) req
          (r.1, before ++ [call] ++ r.2)
        | _ =>
          (handlerFailed "File upload failed: No ID received".toList fallback,
            before ++ [call])

/-- The message V8 gives the `TypeError` of destructuring an undefined `req.body`. -/
def cannotDestructure (field : Str) : Str :=
  "Cannot destructure property '".toList ++ field ++
    "' of 'req.body' as it is undefined.".toList

/-- The function `handleImageUrlRecognition(req, res)`. The destructuring
`const { imageUrl } = req.body` throws when `req.body` is undefined, and the `catch`
block answers. -/
def handleImageUrlRecognition (w : World) (req : Request) : Response × List Call :=
  match req.body with
  | none =>
    (handlerFailed (w.typeErrorMessage "imageUrl".toList) "Internal Server Error".toList, [])
  | some body =>
    let cookie := orElse (req.cookie.getD []) []
    if cookie = [] ∨ truthy body.imageUrl = false then
      (badRequest "Missing cookie or imageUrl", [])
    else
      match tokenMatch cookie with
      | none => (badRequest "Invalid cookie format: missing token", [])
      | some token =>
        let imageUrl := body.imageUrl.getD []
        let fallback := "Internal Server Error".toList
        match w.fetch (.download imageUrl) with
        | .error message => (handlerFailed message fallback, [.download imageUrl])
        | .ok imageResponse =>
          if imageResponse.ok = false then
            (handlerFailed ("Failed to download image from URL: ".toList ++
              imageResponse.statusText) fallback, [.download imageUrl])
          else uploadAndRecognize w token cookie imageUrl req [.download imageUrl]

/-- The function `handleBase64Recognition(req, res)`. The destructuring
`const { base64Image } = req.body` throws when `req.body` is undefined, and the `catch`
block answers. -/
def handleBase64Recognition (w : World) (req : Request) : Response × List Call :=
  match req.body with
  | none =>
    (handlerFailed (w.typeErrorMessage "base64Image".toList) "Internal Server Error".toList,
      [])
  | some body =>
    let cookie := orElse (req.cookie.getD []) []
    if cookie = [] ∨ truthy body.base64Image = false then
      (badRequest "Missing cookie or base64Image", [])
    else
      match tokenMatch cookie with
      | none => (badRequest "Invalid cookie format: missing token", [])
      | some token => uploadAndRecognize w token cookie (body.base64Image.getD []) req []

/-- The function `handleFileRecognition(req, res)`. The destructuring
`const { imageId } = req.body` throws when `req.body` is undefined, and the `catch`
block answers. -/
def handleFileRecognition (w : World) (req : Request) : Response × List Call :=
  match req.body with
  | none =>
    (handlerFailed (w.typeErrorMessage "imageId".toList) "Internal Server Error".toList, [])
  | some body =>
    let cookie := orElse (req.cookie.getD []) []
    if cookie = [] ∨ truthy body.imageId = false then
      (badRequest "Missing cookie or imageId", [])
    else
      let token := (tokenMatch cookie).getD []
      if token = [] then (badRequest "Invalid cookie format: missing token", [])
      else recognizeImage w token (body.imageId.getD []) req

/-- The function `handleProxyUpload(req, res)`. -/
def handleProxyUpload (w : World) (req : Request) : Response × List Call :=
  match req.file with
  | none => (badRequest "No file uploaded", [])
  | some file =>
    let cookie := orElse (req.cookie.getD []) []
    let token := (tokenMatch cookie).getD []
    if token = [] then (badRequest "Invalid cookie format: missing token", [])
    else
      let call := Call.upload token cookie file
      let fallback := "Proxy upload failed".toList
      match w.fetch call with
      | .error message => (handlerFailed message fallback, [call])
      | .ok response =>
        if response.ok = false then
          (handlerFailed ("Proxy upload failed: ".toList ++ response.statusText ++
            " - ".toList ++ response.text) fallback, [call])
        else
          match response.json with
          | .error message => (handlerFailed message fallback, [call])
          | .ok data => (⟨response.status, .forwarded data⟩, [call])

/-! ## Notions used in the statements -/

/-- Deleting all whitespace characters from a string. -/
def deleteWhitespace (s : Str) : Str :=
  s.filter fun c => !isWs c

/-- No backslash directly before `p`. -/
def NotEscaped (p : Char) (a b : Char) : Prop := ¬(a = '\\' ∧ b = p)

/-- No whitespace directly after a dollar sign. -/
def NoSpaceAfterDollar (a b : Char) : Prop := ¬(a = '$' ∧ isWs b = true)

/-- No whitespace directly before a dollar sign. -/
def NoSpaceBeforeDollar (a b : Char) : Prop := ¬(isWs a = true ∧ b = '$')

/-- Replacing each backslash followed by `（` by a backslash followed by `(`, and each
backslash followed by `）` by a backslash followed by `)`, in one pass from the left. -/
def normalizeBrackets : Str → Str
  | [] => []
  | [c] => [c]
  | c :: d :: rest =>
    if c = '\\' ∧ d = '（' then '\\' :: '(' :: normalizeBrackets rest
    else if c = '\\' ∧ d = '）' then '\\' :: ')' :: normalizeBrackets rest
    else c :: normalizeBrackets (d :: rest)

/-- The custom prompt of a request: the text obtained by decoding the header
`x-custom-prompt`, empty when the header is absent. -/
def suppliedPrompt (w : World) (req : Request) : Str :=
  match req.customPrompt with
  | some encoded => w.base64Decode encoded
  | none => []

/-- The fields of a cookie string: the pieces between its semicolons. -/
def splitSemicolons : Str → List Str
  | [] => [[]]
  | c :: rest =>
    if c = ';' then [] :: splitSemicolons rest
    else
      match splitSemicolons rest with
      | [] => [[c]]
      | field :: fields => (c :: field) :: fields

/-- A field of the form `name=value` whose name, leading whitespace apart, is `token`
and whose value is not empty. -/
def isTokenField (field : Str) : Bool :=
  let f := field.dropWhile isWs
  match f.dropWhile (· ≠ '=') with
  | _ :: value => f.takeWhile (· ≠ '=') = "token".toList && !value.isEmpty
  | [] => false

/-- The cookie string has a token field: splitting it on `;`, some `name=value` pair
has the name `token` and a non-empty value. -/
def hasTokenField (cookie : Str) : Bool :=
  (splitSemicolons cookie).any isTokenField

/-- The field `error` of a JSON body, if it has one. -/
def Body.errorText : Body → Option Str
  | .error e => some e
  | .failure e => some e
  | _ => none

/-- The prefix of the error message for a failed call to the remote service, in
`handleProxyUpload` (`proxy = true`) and in the other handlers. -/
def failurePrefix (proxy : Bool) : Call → Option Str
  | .upload _ _ _ =>
    some (if proxy then "Proxy upload failed".toList else "File upload failed".toList)
  | .chat _ _ _ _ => some "Qwen API request failed".toList
  | .download _ => none

/-- The response reports the failed reply of the remote service: status 500, the
field `error` is `pre: statusText - text`, which contains the text of the reply, and
the body is no recognition result. -/
def ReportsFailure (response : Response) (pre : Str) (reply : Reply) : Prop :=
  response.status = 500 ∧
    response.body.errorText =
      some (pre ++ ": ".toList ++ reply.statusText ++ " - ".toList ++ reply.text) ∧
    (∃ err, response.body.errorText = some err ∧ reply.text <:+: err) ∧
    ∀ result type, response.body ≠ .recognized result type

/-- The reply `401 Unauthorized` with the body `bad token`. -/
def unauthorized : Reply :=
  ⟨false, 401, "Unauthorized".toList, "bad token".toList, .error "not JSON".toList⟩

/-- A world where images download and the remote service answers every call with
`unauthorized`. -/
def refusing : World where
  fetch := fun call =>
    match call with
    | .download _ => .ok ⟨true, 200, "OK".toList, [], .error "not JSON".toList⟩
    | _ => .ok unauthorized
  base64Decode := id
  typeErrorMessage := cannotDestructure

/-- The pattern `^[A-Za-z0-9]{1,10}$`: between one and ten characters, each an ASCII
letter or digit. -/
def MatchesCaptchaPattern (c : Str) : Prop :=
  1 ≤ c.length ∧ c.length ≤ 10 ∧ ∀ x ∈ c, isAlnum x = true

instance (c : Str) : Decidable (MatchesCaptchaPattern c) := by
  unfold MatchesCaptchaPattern
  infer_instance

/-- The characters `A`-`Z` and `0`-`9`. -/
def isUpperOrDigit (c : Char) : Bool :=
  ('A' ≤ c && c ≤ 'Z') || ('0' ≤ c && c ≤ '9')

/-- A world whose every reply is a success carrying the given answer of the model. -/
def answering (content : Option Str) : World where
  fetch := fun _ => .ok ⟨true, 200, "OK".toList, [], .ok ⟨some "file-1".toList, content⟩⟩
  base64Decode := id
  typeErrorMessage := cannotDestructure

/-- A request with every input present, in default mode. -/
def plainRequest : Request where
  cookie := some "token=abc".toList
  advancedMode := none
  customPrompt := none
  body := some
    { imageUrl := some "http://host/image.png".toList
      base64Image := some "aGVsbG8=".toList
      imageId := some "img-1".toList }
  file := some "image.png".toList

/-- The same request in advanced mode, with a custom prompt. -/
def advancedRequest : Request :=
  { plainRequest with
    advancedMode := some "true".toList
    customPrompt := some "describe".toList }

/-- The request `plainRequest` without a body: `req.body` is undefined. -/
def bodylessRequest : Request :=
  { plainRequest with body := none }

/-- The request `plainRequest` with a cookie whose only field is named `csrf_token`. -/
def otherFieldRequest : Request :=
  { plainRequest with cookie := some "csrf_token=abc".toList }

/-! ## The replacement loop -/

theorem replaceGo_skip (m : Str → Option Nat) (rep : Str) :
    ∀ (k : Nat) (s : Str), replaceGo m rep k s = replaceGo m rep 0 (s.drop k)
  | 0, s => by simp
  | _ + 1, [] => by simp [replaceGo]
  | k + 1, _ :: rest => by simp [replaceGo, replaceGo_skip m rep k rest]

theorem replaceAll_nil (m : Str → Option Nat) (rep : Str) : replaceAll m rep [] = [] := by
  simp [replaceAll, replaceGo]

theorem replaceAll_hit {m : Str → Option Nat} {rep : Str} {c : Char} {rest : Str} {n : Nat}
    (h : m (c :: rest) = some (n + 1)) :
    replaceAll m rep (c :: rest) = rep ++ replaceAll m rep (rest.drop n) := by
  simp only [replaceAll, replaceGo, h]
  rw [replaceGo_skip]

theorem replaceAll_miss {m : Str → Option Nat} {rep : Str} {c : Char} {rest : Str}
    (h : ∀ n, m (c :: rest) ≠ some (n + 1)) :
    replaceAll m rep (c :: rest) = c :: replaceAll m rep rest := by
  simp only [replaceAll, replaceGo]

/-- Induction along the scan of `replaceAll`: at each position either a match is
replaced and the scan goes on behind it, or one character is copied. -/
theorem replaceAll_induction {m : Str → Option Nat} {P : Str → Prop} (nil : P [])
    (hit : ∀ c rest n, m (c :: rest) = some (n + 1) → P (rest.drop n) → P (c :: rest))
    (miss : ∀ c rest, (∀ n, m (c :: rest) ≠ some (n + 1)) → P rest → P (c :: rest)) :
    ∀ s, P s := by
  have key : ∀ k, ∀ s : Str, s.length ≤ k → P s := by
    intro k
    induction k with
    | zero =>
      intro s hs
      have : s = [] := List.length_eq_zero.mp (Nat.le_zero.mp hs)
      subst this
      exact nil
    | succ k ih =>
      intro s hs
      cases s with
      | nil => exact nil
      | cons c rest =>
        simp only [List.length_cons] at hs
        by_cases hm : ∃ n, m (c :: rest) = some (n + 1)
        · obtain ⟨n, hn⟩ := hm
          refine hit c rest n hn (ih _ ?_)
          simp only [List.length_drop]
          omega
        · exact miss c rest (fun n hn => hm ⟨n, hn⟩) (ih _ (by omega))
  exact fun s => key s.length s le_rfl

/-- A replacement that keeps the characters selected by `p` of every match keeps
those of the whole string. -/
theorem replaceAll_filter {m : Str → Option Nat} {rep : Str} (p : Char → Bool)
    (hm : ∀ s n, m s = some (n + 1) → (s.take (n + 1)).filter p = rep.filter p) (s : Str) :
    (replaceAll m rep s).filter p = s.filter p := by
  induction s using replaceAll_induction (m := m) with
  | nil => simp [replaceAll_nil]
  | hit c rest n h ih =>
    rw [replaceAll_hit h, List.filter_append, ih, ← hm _ _ h, ← List.filter_append]
    simp
  | miss c rest h ih =>
    rw [replaceAll_miss h]
    simp [List.filter_cons, ih]

/-- A replacement no heavier than each match does not make the string heavier. -/
theorem replaceAll_weight {m : Str → Option Nat} {rep : Str} (f : Char → Nat)
    (hm : ∀ s n, m s = some (n + 1) → (rep.map f).sum ≤ ((s.take (n + 1)).map f).sum)
    (s : Str) : ((replaceAll m rep s).map f).sum ≤ (s.map f).sum := by
  induction s using replaceAll_induction (m := m) with
  | nil => simp [replaceAll_nil]
  | hit c rest n h ih =>
    rw [replaceAll_hit h]
    have h1 := hm _ _ h
    have h2 : ((c :: rest).map f).sum
        = (((c :: rest).take (n + 1)).map f).sum + (((c :: rest).drop (n + 1)).map f).sum := by
      rw [← List.sum_append, ← List.map_append, List.take_append_drop]
    rw [h2]
    simp only [List.map_append, List.sum_append, List.drop_succ_cons]
    omega
  | miss c rest h ih =>
    rw [replaceAll_miss h]
    simp only [List.map_cons, List.sum_cons]
    omega

/-! ## The shape of the matches -/

theorem take_takeWhile_length (p : Char → Bool) (l : Str) :
    l.take (l.takeWhile p).length = l.takeWhile p :=
  (List.prefix_iff_eq_take.mp (List.takeWhile_prefix p)).symm

theorem drop_takeWhile_length (p : Char → Bool) (l : Str) :
    l.drop (l.takeWhile p).length = l.dropWhile p := by
  induction l with
  | nil => simp
  | cons a l ih =>
    by_cases h : p a = true
    · simp [List.takeWhile_cons, List.dropWhile_cons, h, ih]
    · simp [List.takeWhile_cons, List.dropWhile_cons, h]

theorem filter_takeWhile_not (p : Char → Bool) (l : Str) :
    (l.takeWhile p).filter (fun c => !p c) = [] := by
  rw [List.filter_eq_nil_iff]
  intro a ha
  simp [List.mem_takeWhile_imp ha]

theorem matchEscaped_some {p c : Char} {rest : Str} {n : Nat}
    (h : matchEscaped p (c :: rest) = some (n + 1)) :
    c = '\\' ∧ n = 1 ∧ ∃ t, rest = p :: t := by
  cases rest with
  | nil => simp [matchEscaped] at h
  | cons d t =>
    simp only [matchEscaped] at h
    split at h
    · next hc =>
      simp only [Option.some.injEq] at h
      exact ⟨hc.1, by omega, t, by rw [hc.2]⟩
    · exact absurd h (by simp)

theorem matchEscaped_none {p c : Char} {rest : Str}
    (h : ∀ n, matchEscaped p (c :: rest) ≠ some (n + 1)) :
    ¬(c = '\\' ∧ rest.head? = some p) := by
  rintro ⟨hc, hp⟩
  cases rest with
  | nil => simp at hp
  | cons d t =>
    simp only [List.head?_cons, Option.some.injEq] at hp
    exact h 1 (by simp [matchEscaped, hc, hp])

theorem matchNewlines_some {s : Str} {n : Nat} (h : matchNewlines s = some (n + 1)) :
    n + 1 = (s.takeWhile (· = '\n')).length ∧ 3 ≤ n + 1 := by
  simp only [matchNewlines] at h
  split at h
  · next hk =>
    simp only [Option.some.injEq] at h
    omega
  · exact absurd h (by simp)

theorem matchNewlines_none {s : Str} (h : ∀ n, matchNewlines s ≠ some (n + 1)) :
    (s.takeWhile (· = '\n')).length ≤ 2 := by
  by_contra hk
  have h3 : 3 ≤ (s.takeWhile (· = '\n')).length := by omega
  obtain ⟨k, hk'⟩ : ∃ k, (s.takeWhile (· = '\n')).length = k + 1 :=
    ⟨(s.takeWhile (· = '\n')).length - 1, by omega⟩
  exact h k (by
    simp only [matchNewlines, hk']
    rw [if_pos (by omega)])

theorem matchDollarSpaces_some {c : Char} {rest : Str} {n : Nat}
    (h : matchDollarSpaces (c :: rest) = some (n + 1)) :
    c = '$' ∧ n = (rest.takeWhile isWs).length ∧ 1 ≤ n := by
  simp only [matchDollarSpaces] at h
  split at h
  · next hc =>
    simp only [Option.some.injEq] at h
    exact ⟨hc.1, by omega, by omega⟩
  · exact absurd h (by simp)

theorem matchDollarSpaces_none {c : Char} {rest : Str}
    (h : ∀ n, matchDollarSpaces (c :: rest) ≠ some (n + 1)) :
    ¬(c = '$' ∧ 1 ≤ (rest.takeWhile isWs).length) := by
  intro hc
  exact h (rest.takeWhile isWs).length
    (by simp only [matchDollarSpaces, hc, and_self, if_true])

theorem matchSpacesDollar_some {s : Str} {n : Nat}
    (h : matchSpacesDollar s = some (n + 1)) :
    n = (s.takeWhile isWs).length ∧ 1 ≤ n ∧ (s.drop n).head? = some '$' := by
  simp only [matchSpacesDollar] at h
  split at h
  · next hc =>
    simp only [Option.some.injEq] at h
    have hn : n = (s.takeWhile isWs).length := by omega
    exact ⟨hn, by omega, by rw [hn]; exact hc.2⟩
  · exact absurd h (by simp)

theorem matchSpacesDollar_none {s : Str} (h : ∀ n, matchSpacesDollar s ≠ some (n + 1)) :
    ¬(1 ≤ (s.takeWhile isWs).length ∧
      (s.drop (s.takeWhile isWs).length).head? = some '$') := by
  intro hc
  exact h (s.takeWhile isWs).length
    (by simp only [matchSpacesDollar, hc, and_self, if_true])

/-! ## What the cleanups keep: every character that is not whitespace -/

theorem take_hit_spacesDollar {s : Str} {n : Nat} (h : matchSpacesDollar s = some (n + 1)) :
    s.take (n + 1) = s.takeWhile isWs ++ ['$'] := by
  obtain ⟨hn, -, hd⟩ := matchSpacesDollar_some h
  rw [List.take_succ, hn, take_takeWhile_length, ← hn]
  rw [List.head?_drop] at hd
  rw [hd]
  rfl

theorem take_hit_dollarSpaces {c : Char} {rest : Str} {n : Nat}
    (h : matchDollarSpaces (c :: rest) = some (n + 1)) :
    (c :: rest).take (n + 1) = '$' :: rest.takeWhile isWs := by
  obtain ⟨hc, hn, -⟩ := matchDollarSpaces_some h
  rw [List.take_succ_cons, hn, take_takeWhile_length, hc]

theorem take_hit_newlines {s : Str} {n : Nat} (h : matchNewlines s = some (n + 1)) :
    s.take (n + 1) = s.takeWhile (· = '\n') := by
  obtain ⟨hn, -⟩ := matchNewlines_some h
  rw [hn, take_takeWhile_length]

theorem take_hit_escaped {p c : Char} {rest : Str} {n : Nat}
    (h : matchEscaped p (c :: rest) = some (n + 1)) :
    (c :: rest).take (n + 1) = ['\\', p] := by
  obtain ⟨hc, hn, t, ht⟩ := matchEscaped_some h
  subst hc hn ht
  rfl

theorem deleteWhitespace_takeWhile (s : Str) : deleteWhitespace (s.takeWhile isWs) = [] :=
  filter_takeWhile_not isWs s

theorem deleteWhitespace_newlines (s : Str) :
    deleteWhitespace (s.takeWhile (· = '\n')) = [] := by
  unfold deleteWhitespace
  rw [List.filter_eq_nil_iff]
  intro a ha
  have := List.mem_takeWhile_imp ha
  simp only [decide_eq_true_eq] at this
  subst this
  decide

theorem deleteWhitespace_replaceNewlines (s : Str) :
    deleteWhitespace (replaceAll matchNewlines ['\n', '\n'] s) = deleteWhitespace s := by
  refine replaceAll_filter _ (fun t n h => ?_) s
  rw [take_hit_newlines h]
  exact deleteWhitespace_newlines t

theorem deleteWhitespace_replaceDollarSpaces (s : Str) :
    deleteWhitespace (replaceAll matchDollarSpaces ['$'] s) = deleteWhitespace s := by
  refine replaceAll_filter _ (fun t n h => ?_) s
  cases t with
  | nil => simp [matchDollarSpaces] at h
  | cons c rest =>
    rw [take_hit_dollarSpaces h, List.filter_cons_of_pos (by decide)]
    have := deleteWhitespace_takeWhile rest
    unfold deleteWhitespace at this
    rw [this]
    rfl

theorem deleteWhitespace_replaceSpacesDollar (s : Str) :
    deleteWhitespace (replaceAll matchSpacesDollar ['$'] s) = deleteWhitespace s := by
  refine replaceAll_filter _ (fun t n h => ?_) s
  rw [take_hit_spacesDollar h, List.filter_append]
  have := deleteWhitespace_takeWhile t
  unfold deleteWhitespace at this
  rw [this]
  rfl

theorem deleteWhitespace_dropWhile (s : Str) :
    deleteWhitespace (s.dropWhile isWs) = deleteWhitespace s := by
  conv_rhs => rw [← List.takeWhile_append_dropWhile isWs s]
  unfold deleteWhitespace
  rw [List.filter_append, filter_takeWhile_not, List.nil_append]

theorem deleteWhitespace_trim (s : Str) : deleteWhitespace (trim s) = deleteWhitespace s := by
  have hrev : ∀ t : Str, deleteWhitespace t.reverse = (deleteWhitespace t).reverse :=
    fun t => List.filter_reverse _ t
  unfold trim
  rw [hrev, deleteWhitespace_dropWhile, hrev, List.reverse_reverse, deleteWhitespace_dropWhile]

/-- The five replacements and the trim change whitespace only, once the two bracket
forms are replaced. -/
theorem deleteWhitespace_cleanup (s : Str) :
    deleteWhitespace (cleanup s) =
      deleteWhitespace (replaceAll (matchEscaped '）') ['\\', ')']
        (replaceAll (matchEscaped '（') ['\\', '('] s)) := by
  unfold cleanup
  rw [deleteWhitespace_trim, deleteWhitespace_replaceSpacesDollar,
    deleteWhitespace_replaceDollarSpaces, deleteWhitespace_replaceNewlines]

/-! ## The cleanups do not lengthen the string -/

theorem weight_replaceEscaped (f : Char → Nat) {p q : Char} (hf : f q ≤ f p) (s : Str) :
    ((replaceAll (matchEscaped p) ['\\', q] s).map f).sum ≤ (s.map f).sum := by
  refine replaceAll_weight f (fun t n h => ?_) s
  cases t with
  | nil => simp [matchEscaped] at h
  | cons c rest =>
    rw [take_hit_escaped h]
    simp only [List.map_cons, List.map_nil, List.sum_cons, List.sum_nil]
    omega

theorem weight_replaceNewlines (f : Char → Nat) (s : Str) :
    ((replaceAll matchNewlines ['\n', '\n'] s).map f).sum ≤ (s.map f).sum := by
  refine replaceAll_weight f (fun t n h => ?_) s
  rw [take_hit_newlines h]
  obtain ⟨hn, h3⟩ := matchNewlines_some h
  have hall : ∀ l : Str, (∀ a ∈ l, a = '\n') → (l.map f).sum = l.length * f '\n' := by
    intro l
    induction l with
    | nil => simp
    | cons a l ih =>
      intro ha
      simp only [List.map_cons, List.sum_cons, List.length_cons]
      rw [ih (fun b hb => ha b (List.mem_cons_of_mem _ hb)), ha a (List.mem_cons_self _ _)]
      ring
  rw [hall (t.takeWhile (· = '\n')) (fun a ha => by simpa using List.mem_takeWhile_imp ha),
    ← hn]
  simp only [List.map_cons, List.map_nil, List.sum_cons, List.sum_nil]
  nlinarith

theorem weight_replaceDollarSpaces (f : Char → Nat) (s : Str) :
    ((replaceAll matchDollarSpaces ['$'] s).map f).sum ≤ (s.map f).sum := by
  refine replaceAll_weight f (fun t n h => ?_) s
  cases t with
  | nil => simp [matchDollarSpaces] at h
  | cons c rest =>
    rw [take_hit_dollarSpaces h]
    simp

theorem weight_replaceSpacesDollar (f : Char → Nat) (s : Str) :
    ((replaceAll matchSpacesDollar ['$'] s).map f).sum ≤ (s.map f).sum := by
  refine replaceAll_weight f (fun t n h => ?_) s
  rw [take_hit_spacesDollar h]
  simp

theorem weight_dropWhile (f : Char → Nat) (p : Char → Bool) (s : Str) :
    ((s.dropWhile p).map f).sum ≤ (s.map f).sum := by
  have h : (s.map f).sum = ((s.takeWhile p ++ s.dropWhile p).map f).sum := by
    rw [List.takeWhile_append_dropWhile]
  rw [h, List.map_append, List.sum_append]
  omega

theorem weight_trim (f : Char → Nat) (s : Str) : ((trim s).map f).sum ≤ (s.map f).sum := by
  unfold trim
  rw [List.map_reverse, List.sum_reverse]
  refine le_trans (weight_dropWhile f isWs _) ?_
  rw [List.map_reverse, List.sum_reverse]
  exact weight_dropWhile f isWs s

theorem weight_cleanup (f : Char → Nat) (h1 : f '(' ≤ f '（') (h2 : f ')' ≤ f '）') (s : Str) :
    ((cleanup s).map f).sum ≤ (s.map f).sum := by
  unfold cleanup
  refine le_trans (weight_trim f _) ?_
  refine le_trans (weight_replaceSpacesDollar f _) ?_
  refine le_trans (weight_replaceDollarSpaces f _) ?_
  refine le_trans (weight_replaceNewlines f _) ?_
  refine le_trans (weight_replaceEscaped f h2 _) ?_
  exact weight_replaceEscaped f h1 s

theorem length_cleanup (s : Str) : (cleanup s).length ≤ s.length := by
  have h := weight_cleanup (fun _ => 1) le_rfl le_rfl s
  simpa using h

theorem jsLength_cleanup (s : Str) : jsLength (cleanup s) ≤ jsLength s :=
  weight_cleanup _ (by decide) (by decide) s

/-! ## Adjacent characters through a replacement -/

theorem head?_replaceAll_hit {m : Str → Option Nat} {rep : Str} {a : Char} {rep' : Str}
    (hrep : rep = a :: rep') {s : Str} {n : Nat} (h : m s = some (n + 1)) :
    (replaceAll m rep s).head? = some a ∨ s = [] := by
  cases s with
  | nil => exact Or.inr rfl
  | cons c rest =>
    left
    rw [replaceAll_hit h, hrep]
    rfl

theorem head?_replaceAll_miss {m : Str → Option Nat} {rep : Str} {s : Str}
    (h : ∀ n, m s ≠ some (n + 1)) : (replaceAll m rep s).head? = s.head? := by
  cases s with
  | nil => rw [replaceAll_nil]
  | cons c rest => rw [replaceAll_miss h]; rfl

/-- When every match starts with the first character of the replacement, the
replacement keeps the first character of the string. -/
theorem head?_replaceAll {m : Str → Option Nat} {rep : Str}
    (hm : ∀ c rest n, m (c :: rest) = some (n + 1) → rep.head? = some c) (s : Str) :
    (replaceAll m rep s).head? = s.head? := by
  cases s with
  | nil => rw [replaceAll_nil]
  | cons c rest =>
    by_cases hit : ∃ n, m (c :: rest) = some (n + 1)
    · obtain ⟨n, hn⟩ := hit
      have h := hm c rest n hn
      rw [replaceAll_hit hn]
      cases rep with
      | nil => simp at h
      | cons a rep' => simpa using h
    · rw [replaceAll_miss (fun n hn => hit ⟨n, hn⟩)]; rfl

/-- The first character of the result is the first of the replacement or the first
of the string. -/
theorem head?_replaceAll_cases {m : Str → Option Nat} {a : Char} {rep' : Str} (s : Str) :
    ∀ y ∈ (replaceAll m (a :: rep') s).head?, y = a ∨ y ∈ s.head? := by
  intro y hy
  by_cases hit : ∃ n, m s = some (n + 1)
  · obtain ⟨n, hn⟩ := hit
    rcases @head?_replaceAll_hit m (a :: rep') a rep' rfl s n hn with h | h
    · rw [h] at hy
      left
      simpa using hy.symm
    · subst h
      rw [replaceAll_nil] at hy
      simp at hy
  · rw [head?_replaceAll_miss (fun n hn => hit ⟨n, hn⟩)] at hy
    exact Or.inr hy

/-- A relation between neighbours survives a replacement whose text satisfies it
inside and at both of its ends, whatever stands next to it. -/
theorem chain_replaceAll {Rel : Char → Char → Prop} {m : Str → Option Nat} {a : Char}
    {rep' : Str} (hrep : List.Chain' Rel (a :: rep')) (hin : ∀ x, Rel x a)
    (hout : ∀ x ∈ (a :: rep').getLast?, ∀ y, Rel x y) (s : Str) :
    List.Chain' Rel s → List.Chain' Rel (replaceAll m (a :: rep') s) := by
  induction s using replaceAll_induction (m := m) with
  | nil => intro _; rw [replaceAll_nil]; exact List.chain'_nil
  | hit c rest n h ih =>
    intro hs
    rw [replaceAll_hit h, List.chain'_append]
    refine ⟨hrep, ih ?_, fun x hx y _ => hout x hx y⟩
    exact hs.suffix ((List.drop_suffix n rest).trans (List.suffix_cons c rest))
  | miss c rest h ih =>
    intro hs
    rw [replaceAll_miss h, List.chain'_cons']
    rw [List.chain'_cons'] at hs
    refine ⟨fun y hy => ?_, ih hs.2⟩
    rcases head?_replaceAll_cases rest y hy with rfl | hy'
    · exact hin c
    · exact hs.1 y hy'

theorem notEscaped_replaceEscaped {p q : Char} (hq : q ≠ '\\') (hpq : q ≠ p) (s : Str) :
    List.Chain' (NotEscaped p) (replaceAll (matchEscaped p) ['\\', q] s) := by
  have hhead : ∀ t : Str, (replaceAll (matchEscaped p) ['\\', q] t).head? = t.head? :=
    head?_replaceAll (fun c rest n h => by rw [(matchEscaped_some h).1]; rfl)
  induction s using replaceAll_induction (m := matchEscaped p) with
  | nil => rw [replaceAll_nil]; exact List.chain'_nil
  | hit c rest n h ih =>
    rw [replaceAll_hit h, List.chain'_append]
    refine ⟨List.chain'_pair.mpr (fun hc => hpq hc.2), ih, fun x hx y _ hc => ?_⟩
    simp only [List.getLast?_cons_cons, List.getLast?_singleton, Option.mem_def,
      Option.some.injEq] at hx
    exact hq (hx ▸ hc.1)
  | miss c rest h ih =>
    rw [replaceAll_miss h, List.chain'_cons']
    refine ⟨fun y hy hc => matchEscaped_none h ⟨hc.1, ?_⟩, ih⟩
    rw [hhead] at hy
    rw [← hc.2]
    exact hy

theorem head?_dropWhile_isWs (s : Str) : ∀ y ∈ (s.dropWhile isWs).head?, isWs y = false := by
  intro y hy
  have h := List.head?_dropWhile_not isWs s
  rw [Option.mem_def.mp hy] at h
  exact h

theorem length_takeWhile_pos {p : Char → Bool} {y : Char} {s : Str} (hy : y ∈ s.head?)
    (hp : p y = true) : 1 ≤ (s.takeWhile p).length := by
  cases s with
  | nil => simp at hy
  | cons c rest =>
    simp only [List.head?_cons, Option.mem_def, Option.some.injEq] at hy
    subst hy
    simp [List.takeWhile_cons, hp]

theorem noSpaceAfterDollar_replaceDollarSpaces (s : Str) :
    List.Chain' NoSpaceAfterDollar (replaceAll matchDollarSpaces ['$'] s) := by
  have hhead : ∀ t : Str, (replaceAll matchDollarSpaces ['$'] t).head? = t.head? :=
    head?_replaceAll (fun c rest n h => by rw [(matchDollarSpaces_some h).1]; rfl)
  induction s using replaceAll_induction (m := matchDollarSpaces) with
  | nil => rw [replaceAll_nil]; exact List.chain'_nil
  | hit c rest n h ih =>
    rw [replaceAll_hit h, List.singleton_append]
    refine List.chain'_cons'.mpr ⟨fun y hy hc => ?_, ih⟩
    rw [hhead, (matchDollarSpaces_some h).2.1, drop_takeWhile_length] at hy
    rw [head?_dropWhile_isWs rest y hy] at hc
    exact absurd hc.2 (by decide)
  | miss c rest h ih =>
    rw [replaceAll_miss h]
    refine List.chain'_cons'.mpr ⟨fun y hy hc => ?_, ih⟩
    rw [hhead] at hy
    exact matchDollarSpaces_none h ⟨hc.1, length_takeWhile_pos hy hc.2⟩

theorem matchSpacesDollar_cons_ws {c : Char} {rest : Str} (hc : isWs c = true) {n : Nat}
    (h : matchSpacesDollar rest = some (n + 1)) :
    matchSpacesDollar (c :: rest) = some (n + 2) := by
  obtain ⟨hn, h1, hd⟩ := matchSpacesDollar_some h
  simp only [matchSpacesDollar, List.takeWhile_cons, hc, if_true, List.length_cons,
    List.drop_succ_cons, ← hn, hd]
  simp

theorem matchSpacesDollar_ws_dollar {c : Char} {rest : Str} (hc : isWs c = true)
    (hd : rest.head? = some '$') : matchSpacesDollar (c :: rest) = some 2 := by
  cases rest with
  | nil => simp at hd
  | cons d t =>
    simp only [List.head?_cons, Option.some.injEq] at hd
    subst hd
    have h : isWs '$' = false := by decide
    simp [matchSpacesDollar, List.takeWhile_cons, hc, h]

theorem noSpaceBeforeDollar_replaceSpacesDollar (s : Str) :
    List.Chain' NoSpaceBeforeDollar (replaceAll matchSpacesDollar ['$'] s) := by
  induction s using replaceAll_induction (m := matchSpacesDollar) with
  | nil => rw [replaceAll_nil]; exact List.chain'_nil
  | hit c rest n h ih =>
    rw [replaceAll_hit h, List.singleton_append]
    refine List.chain'_cons'.mpr ⟨fun y _ hc => absurd hc.1 (by decide), ih⟩
  | miss c rest h ih =>
    rw [replaceAll_miss h]
    refine List.chain'_cons'.mpr ⟨fun y hy hc => ?_, ih⟩
    rw [hc.2] at hy
    by_cases hit : ∃ n, matchSpacesDollar rest = some (n + 1)
    · obtain ⟨n, hn⟩ := hit
      exact h (n + 1) (matchSpacesDollar_cons_ws hc.1 hn)
    · rw [head?_replaceAll_miss (fun n hn => hit ⟨n, hn⟩)] at hy
      exact h 1 (matchSpacesDollar_ws_dollar hc.1 hy)

theorem noSpaceAfterDollar_replaceSpacesDollar (s : Str) :
    List.Chain' NoSpaceAfterDollar s →
      List.Chain' NoSpaceAfterDollar (replaceAll matchSpacesDollar ['$'] s) := by
  have hhead : ∀ t : Str, List.Chain' NoSpaceAfterDollar ('$' :: t) →
      ∀ y ∈ (replaceAll matchSpacesDollar ['$'] t).head?, isWs y = false := by
    intro t ht y hy
    rcases head?_replaceAll_cases t y hy with rfl | hy'
    · decide
    · have := (List.chain'_cons'.mp ht).1 y hy'
      simpa [NoSpaceAfterDollar] using this
  induction s using replaceAll_induction (m := matchSpacesDollar) with
  | nil => intro _; rw [replaceAll_nil]; exact List.chain'_nil
  | hit c rest n h ih =>
    intro hs
    obtain ⟨-, -, hd⟩ := matchSpacesDollar_some h
    have hsplit : (c :: rest).drop n = '$' :: rest.drop n := by
      have h1 : ((c :: rest).drop n).tail = rest.drop n := by
        rw [List.tail_drop, List.drop_succ_cons]
      cases hl : (c :: rest).drop n with
      | nil => rw [hl] at hd; simp at hd
      | cons d t =>
        rw [hl] at hd h1
        simp only [List.head?_cons, Option.some.injEq] at hd
        simp only [List.tail_cons] at h1
        rw [hd, h1]
    have hch : List.Chain' NoSpaceAfterDollar ('$' :: rest.drop n) := by
      rw [← hsplit]
      exact hs.suffix (List.drop_suffix n _)
    rw [replaceAll_hit h, List.singleton_append]
    refine List.chain'_cons'.mpr ⟨fun y hy hc => ?_, ih (List.chain'_cons'.mp hch).2⟩
    rw [hhead _ hch y hy] at hc
    exact absurd hc.2 (by decide)
  | miss c rest h ih =>
    intro hs
    rw [replaceAll_miss h]
    refine List.chain'_cons'.mpr ⟨fun y hy hc => ?_, ih (List.chain'_cons'.mp hs).2⟩
    have hs' : List.Chain' NoSpaceAfterDollar ('$' :: rest) := hc.1 ▸ hs
    rw [hhead _ hs' y hy] at hc
    exact absurd hc.2 (by decide)

/-! ## Runs of newlines -/

theorem head?_replaceNewlines (s : Str) :
    (replaceAll matchNewlines ['\n', '\n'] s).head? = s.head? := by
  refine head?_replaceAll (fun c rest n h => ?_) s
  obtain ⟨hn, h3⟩ := matchNewlines_some h
  by_cases hc : c = '\n'
  · rw [hc]; rfl
  · simp [List.takeWhile_cons, hc] at hn

theorem head?_dropWhile_newline (s : Str) :
    ∀ y ∈ (s.dropWhile (· = '\n')).head?, y ≠ '\n' := by
  intro y hy
  have h := List.head?_dropWhile_not (· = '\n') s
  rw [Option.mem_def.mp hy] at h
  simpa using h

theorem head?_of_prefix {a : Char} {q t : Str} (h : a :: q <+: t) : a ∈ t.head? := by
  obtain ⟨u, rfl⟩ := h
  simp

theorem not_prefix_replaceNewlines (s : Str) :
    ¬ ['\n', '\n', '\n'] <+: replaceAll matchNewlines ['\n', '\n'] s := by
  intro hp
  cases s with
  | nil => rw [replaceAll_nil] at hp; simp at hp
  | cons c rest =>
    by_cases hit : ∃ n, matchNewlines (c :: rest) = some (n + 1)
    · obtain ⟨n, hn⟩ := hit
      rw [replaceAll_hit hn] at hp
      simp only [List.cons_append, List.nil_append, List.cons_prefix_cons, true_and] at hp
      have hy := head?_of_prefix hp
      rw [head?_replaceNewlines] at hy
      have hk := (matchNewlines_some hn).1
      have hd : rest.drop n = (c :: rest).dropWhile (· = '\n') := by
        rw [← drop_takeWhile_length, ← hk, List.drop_succ_cons]
      rw [hd] at hy
      exact head?_dropWhile_newline _ _ hy rfl
    · have hmiss : ∀ n, matchNewlines (c :: rest) ≠ some (n + 1) := fun n hn => hit ⟨n, hn⟩
      have hrun := matchNewlines_none hmiss
      rw [replaceAll_miss hmiss] at hp
      simp only [List.cons_prefix_cons] at hp
      obtain ⟨hc, hp⟩ := hp
      subst hc
      cases rest with
      | nil => rw [replaceAll_nil] at hp; simp at hp
      | cons d rest2 =>
        have hmiss2 : ∀ n, matchNewlines (d :: rest2) ≠ some (n + 1) := by
          intro n hn
          have := (matchNewlines_some hn)
          rw [List.takeWhile_cons_of_pos (by simp), List.length_cons] at hrun
          omega
        rw [replaceAll_miss hmiss2] at hp
        simp only [List.cons_prefix_cons] at hp
        obtain ⟨hd, hp⟩ := hp
        subst hd
        have hy := head?_of_prefix hp
        rw [head?_replaceNewlines] at hy
        cases rest2 with
        | nil => simp at hy
        | cons e rest3 =>
          simp only [List.head?_cons, Option.mem_def, Option.some.injEq] at hy
          subst hy
          simp [List.takeWhile_cons] at hrun

/-- After `.replace(/\n{3,}/g, '\n\n')` no three newlines stand in a row. -/
theorem not_infix_replaceNewlines (s : Str) :
    ¬ ['\n', '\n', '\n'] <:+: replaceAll matchNewlines ['\n', '\n'] s := by
  induction s using replaceAll_induction (m := matchNewlines) with
  | nil => rw [replaceAll_nil]; simp
  | hit c rest n h ih =>
    intro hi
    have hpre := not_prefix_replaceNewlines (c :: rest)
    rw [replaceAll_hit h] at hi hpre
    simp only [List.cons_append, List.nil_append] at hi hpre
    rcases List.infix_cons_iff.mp hi with h1 | h1
    · exact hpre h1
    · rcases List.infix_cons_iff.mp h1 with h2 | h2
      · simp only [List.cons_prefix_cons, true_and] at h2
        have hy := head?_of_prefix h2
        rw [head?_replaceNewlines] at hy
        have hk := (matchNewlines_some h).1
        have hd : rest.drop n = (c :: rest).dropWhile (· = '\n') := by
          rw [← drop_takeWhile_length, ← hk, List.drop_succ_cons]
        rw [hd] at hy
        exact head?_dropWhile_newline _ _ hy rfl
      · exact ih h2
  | miss c rest h ih =>
    intro hi
    have hpre := not_prefix_replaceNewlines (c :: rest)
    rw [replaceAll_miss h] at hi hpre
    rcases List.infix_cons_iff.mp hi with h1 | h1
    · exact hpre h1
    · exact ih h1

/-! ## Patterns that share no character with the replacement -/

theorem prefix_of_prefix_replaceAll {m : Str → Option Nat} {a : Char} {rep' : Str} :
    ∀ (pat : Str), a ∉ pat → ∀ s : Str, pat <+: replaceAll m (a :: rep') s → pat <+: s
  | [], _, s, _ => List.nil_prefix
  | b :: q, hb, [], hp => by rw [replaceAll_nil] at hp; simp at hp
  | b :: q, hb, c :: rest, hp => by
    by_cases hit : ∃ n, m (c :: rest) = some (n + 1)
    · obtain ⟨n, hn⟩ := hit
      rw [replaceAll_hit hn] at hp
      simp only [List.cons_append, List.cons_prefix_cons] at hp
      exact absurd (hp.1 ▸ List.mem_cons_self b q) hb
    · rw [replaceAll_miss (fun n hn => hit ⟨n, hn⟩)] at hp
      simp only [List.cons_prefix_cons] at hp
      rw [List.cons_prefix_cons]
      exact ⟨hp.1, prefix_of_prefix_replaceAll q
        (fun hq => hb (List.mem_cons_of_mem _ hq)) rest hp.2⟩

theorem infix_of_infix_append {pat : Str} (hne : pat ≠ []) :
    ∀ (r l : Str), (∀ x ∈ r, x ∉ pat) → pat <:+: r ++ l → pat <:+: l
  | [], l, _, h => h
  | a :: r, l, hr, h => by
    rw [List.cons_append] at h
    rcases List.infix_cons_iff.mp h with h1 | h1
    · cases pat with
      | nil => exact absurd rfl hne
      | cons b q =>
        simp only [List.cons_prefix_cons] at h1
        exact absurd (List.mem_cons_self b q)
          (h1.1 ▸ hr a (List.mem_cons_self a r))
    · exact infix_of_infix_append hne r l
        (fun x hx => hr x (List.mem_cons_of_mem _ hx)) h1

/-- A pattern that shares no character with the replacement occurs in the result
only where it occurred before. -/
theorem infix_of_infix_replaceAll {m : Str → Option Nat} {a : Char} {rep' pat : Str}
    (hne : pat ≠ []) (hdisj : ∀ x ∈ a :: rep', x ∉ pat) (s : Str) :
    pat <:+: replaceAll m (a :: rep') s → pat <:+: s := by
  induction s using replaceAll_induction (m := m) with
  | nil => rw [replaceAll_nil]; exact id
  | hit c rest n h ih =>
    intro hi
    rw [replaceAll_hit h] at hi
    have h1 := ih (infix_of_infix_append hne _ _ hdisj hi)
    exact h1.trans ((List.drop_suffix n rest).trans (List.suffix_cons c rest)).isInfix
  | miss c rest h ih =>
    intro hi
    have hpre := @prefix_of_prefix_replaceAll m a rep' pat
      (hdisj a (List.mem_cons_self a rep')) (c :: rest)
    rw [replaceAll_miss h] at hi hpre
    rcases List.infix_cons_iff.mp hi with h1 | h1
    · exact (hpre h1).isInfix
    · exact (ih h1).trans (List.suffix_cons c rest).isInfix

/-! ## The trim, and the cleanups together -/

theorem trim_isPrefix (s : Str) : trim s <+: s.dropWhile isWs :=
  List.rdropWhile_prefix isWs (s.dropWhile isWs)

theorem trim_isInfix (s : Str) : trim s <:+: s := by
  have h1 := trim_isPrefix s
  exact h1.isInfix.trans (List.dropWhile_suffix isWs).isInfix

theorem head?_trim (s : Str) : ∀ y ∈ (trim s).head?, isWs y = false := by
  intro y hy
  obtain ⟨u, hu⟩ := trim_isPrefix s
  refine head?_dropWhile_isWs s y ?_
  rw [← hu]
  cases ht : trim s with
  | nil => rw [ht] at hy; simp at hy
  | cons a t => rw [ht] at hy; simpa using hy

theorem getLast?_trim (s : Str) : ∀ y ∈ (trim s).getLast?, isWs y = false := by
  intro y hy
  unfold trim at hy
  rw [List.getLast?_reverse] at hy
  exact head?_dropWhile_isWs _ y hy

theorem chain_of_isInfix {Rel : Char → Char → Prop} {l t : Str} (h : List.Chain' Rel l)
    (hi : t <:+: l) : List.Chain' Rel t :=
  List.Chain'.infix h hi

theorem not_infix_of_chain {Rel : Char → Char → Prop} {l : Str} (h : List.Chain' Rel l)
    {a b : Char} (hab : ¬Rel a b) : ¬ [a, b] <:+: l :=
  fun hi => hab (List.chain'_pair.mp (chain_of_isInfix h hi))

/-- The string before the final trim. -/
theorem chain_beforeTrim (s : Str) :
    let t := replaceAll matchSpacesDollar ['$']
      (replaceAll matchDollarSpaces ['$']
        (replaceAll matchNewlines ['\n', '\n']
          (replaceAll (matchEscaped '）') ['\\', ')']
            (replaceAll (matchEscaped '（') ['\\', '('] s))))
    List.Chain' (NotEscaped '（') t ∧ List.Chain' (NotEscaped '）') t ∧
      ¬ ['\n', '\n', '\n'] <:+: t ∧
      List.Chain' NoSpaceAfterDollar t ∧ List.Chain' NoSpaceBeforeDollar t := by
  intro t
  have e1 : ∀ p : Char, p ≠ '\\' → p ≠ '$' → p ≠ '\n' → ∀ u : Str,
      List.Chain' (NotEscaped p) u →
      List.Chain' (NotEscaped p) (replaceAll matchSpacesDollar ['$']
        (replaceAll matchDollarSpaces ['$'] (replaceAll matchNewlines ['\n', '\n'] u))) := by
    intro p hp1 hp2 hp3 u hu
    have hd : ∀ (m : Str → Option Nat) (v : Str), List.Chain' (NotEscaped p) v →
        List.Chain' (NotEscaped p) (replaceAll m ['$'] v) := fun m v hv =>
      chain_replaceAll (List.chain'_singleton _) (fun x hc => hp2 hc.2.symm)
        (fun x hx y hc => by
          simp only [List.getLast?_singleton, Option.mem_def, Option.some.injEq] at hx
          rw [← hx] at hc
          exact absurd hc.1 (by decide)) v hv
    refine hd _ _ (hd _ _ ?_)
    refine chain_replaceAll (List.chain'_pair.mpr (fun hc => absurd hc.1 (by decide)))
      (fun x hc => hp3 hc.2.symm) (fun x hx y hc => ?_) u hu
    simp only [List.getLast?_cons_cons, List.getLast?_singleton, Option.mem_def,
      Option.some.injEq] at hx
    rw [← hx] at hc
    exact absurd hc.1 (by decide)
  refine ⟨?_, ?_, ?_, ?_, ?_⟩
  · refine e1 _ (by decide) (by decide) (by decide) _ ?_
    refine chain_replaceAll (List.chain'_pair.mpr (fun hc => absurd hc.2 (by decide)))
      (fun x hc => absurd hc.2 (by decide)) (fun x hx y hc => ?_) _
      (notEscaped_replaceEscaped (by decide) (by decide) s)
    simp only [List.getLast?_cons_cons, List.getLast?_singleton, Option.mem_def,
      Option.some.injEq] at hx
    rw [← hx] at hc
    exact absurd hc.1 (by decide)
  · exact e1 _ (by decide) (by decide) (by decide) _
      (notEscaped_replaceEscaped (by decide) (by decide) _)
  · intro hi
    have hd : ∀ x ∈ ['$'], x ∉ ['\n', '\n', '\n'] := by decide
    exact not_infix_replaceNewlines _
      (infix_of_infix_replaceAll (by simp) hd _
        (infix_of_infix_replaceAll (by simp) hd _ hi))
  · exact noSpaceAfterDollar_replaceSpacesDollar _ (noSpaceAfterDollar_replaceDollarSpaces _)
  · exact noSpaceBeforeDollar_replaceSpacesDollar _

/-- What the cleanups guarantee about their result. -/
theorem cleanup_clean (s : Str) :
    ¬ ['\\', '（'] <:+: cleanup s ∧ ¬ ['\\', '）'] <:+: cleanup s ∧
      ¬ ['\n', '\n', '\n'] <:+: cleanup s ∧
      (∀ x, isWs x = true → ¬ ['$', x] <:+: cleanup s) ∧
      (∀ x, isWs x = true → ¬ [x, '$'] <:+: cleanup s) ∧
      (∀ x ∈ (cleanup s).head?, isWs x = false) ∧
      (∀ x ∈ (cleanup s).getLast?, isWs x = false) := by
  obtain ⟨h1, h2, h3, h4, h5⟩ := chain_beforeTrim s
  have hi := trim_isInfix (replaceAll matchSpacesDollar ['$']
      (replaceAll matchDollarSpaces ['$']
        (replaceAll matchNewlines ['\n', '\n']
          (replaceAll (matchEscaped '）') ['\\', ')']
            (replaceAll (matchEscaped '（') ['\\', '('] s)))))
  refine ⟨?_, ?_, ?_, ?_, ?_, head?_trim _, getLast?_trim _⟩
  · exact not_infix_of_chain (chain_of_isInfix h1 hi) (fun h => h ⟨rfl, rfl⟩)
  · exact not_infix_of_chain (chain_of_isInfix h2 hi) (fun h => h ⟨rfl, rfl⟩)
  · exact fun h => h3 (h.trans hi)
  · exact fun x hx => not_infix_of_chain (chain_of_isInfix h4 hi) (fun h => h ⟨rfl, hx⟩)
  · exact fun x hx => not_infix_of_chain (chain_of_isInfix h5 hi) (fun h => h ⟨hx, rfl⟩)

/-! ## `recognizeImage` after a successful reply -/

theorem recognizeImage_ok {w : World} {token imageId : Str} {req : Request} {reply : Reply}
    {data : Data} (hf : w.fetch (chatCall w token imageId req) = .ok reply)
    (hok : reply.ok = true) (hj : reply.json = .ok data) :
    recognizeImage w token imageId req =
      (⟨200, .recognized (formatResult (advancedMode req) data.content).1
        (formatResult (advancedMode req) data.content).2⟩,
        [chatCall w token imageId req]) := by
  simp [recognizeImage, hf, hok, hj]

theorem char_le_iff (a b : Char) : a ≤ b ↔ a.toNat ≤ b.toNat := by
  simp only [Char.le_def, UInt32.le_def, BitVec.le_def]
  rfl

theorem isAlnum_iff (x : Char) : isAlnum x = true ↔
    (65 ≤ x.toNat ∧ x.toNat ≤ 90) ∨ (97 ≤ x.toNat ∧ x.toNat ≤ 122) ∨
      (48 ≤ x.toNat ∧ x.toNat ≤ 57) := by
  simp only [isAlnum, Bool.or_eq_true, Bool.and_eq_true, decide_eq_true_eq, char_le_iff]
  have e1 : ('Z' : Char).toNat = 90 := rfl
  have e2 : ('z' : Char).toNat = 122 := rfl
  have e3 : ('9' : Char).toNat = 57 := rfl
  have e4 : ('A' : Char).toNat = 65 := rfl
  have e5 : ('a' : Char).toNat = 97 := rfl
  have e6 : ('0' : Char).toNat = 48 := rfl
  rw [e1, e2, e3, e4, e5, e6]
  tauto

theorem isUpperOrDigit_iff (x : Char) : isUpperOrDigit x = true ↔
    (65 ≤ x.toNat ∧ x.toNat ≤ 90) ∨ (48 ≤ x.toNat ∧ x.toNat ≤ 57) := by
  simp only [isUpperOrDigit, Bool.or_eq_true, Bool.and_eq_true, decide_eq_true_eq,
    char_le_iff]
  have e1 : ('Z' : Char).toNat = 90 := rfl
  have e3 : ('9' : Char).toNat = 57 := rfl
  have e4 : ('A' : Char).toNat = 65 := rfl
  have e6 : ('0' : Char).toNat = 48 := rfl
  rw [e1, e3, e4, e6]

theorem toNat_ofNat_small (n : Nat) (h : n < 0xd800) : (Char.ofNat n).toNat = n := by
  have hv : n.isValidChar := Or.inl h
  simp only [Char.ofNat, hv, dif_pos]
  simp [Char.ofNatAux, Char.toNat, UInt32.toNat]

/-- Uppercasing a letter or digit gives a capital letter or a digit. -/
theorem isUpperOrDigit_toUpper {x : Char} (h : isAlnum x = true) :
    isUpperOrDigit x.toUpper = true := by
  rw [isAlnum_iff] at h
  rw [isUpperOrDigit_iff]
  unfold Char.toUpper
  simp only [ge_iff_le]
  split
  · next hl =>
    rw [toNat_ofNat_small _ (by omega)]
    omega
  · omega

theorem isAlnum_bmp {x : Char} (h : isAlnum x = true) : x.toNat < 0x10000 := by
  rw [isAlnum_iff] at h
  omega

theorem jsLength_of_alnum : ∀ c : Str, (∀ x ∈ c, isAlnum x = true) → jsLength c = c.length
  | [], _ => rfl
  | a :: c, h => by
    have ih := jsLength_of_alnum c (fun x hx => h x (List.mem_cons_of_mem _ hx))
    have ha := isAlnum_bmp (h a (List.mem_cons_self a c))
    unfold jsLength at ih ⊢
    simp only [List.map_cons, List.sum_cons, List.length_cons, ha, if_true, ih]
    omega

theorem testAlnum_iff (c : Str) : testAlnum c = true ↔ c ≠ [] ∧ ∀ x ∈ c, isAlnum x = true := by
  cases c <;> simp [testAlnum]

theorem sentinel_not_alnum (c : Str) (h : ∀ x ∈ c, isAlnum x = true) : c ≠ sentinel := by
  rintro rfl
  exact absurd (h '识' (by decide)) (by decide)

/-- The guard of the captcha branch, on a non-empty answer. -/
theorem captcha_guard_iff {c : Str} (hc : c ≠ []) :
    (c ≠ sentinel ∧ jsLength c ≤ 10 ∧ testAlnum c = true) ↔ MatchesCaptchaPattern c := by
  rw [testAlnum_iff]
  constructor
  · rintro ⟨-, hl, -, ha⟩
    rw [jsLength_of_alnum c ha] at hl
    exact ⟨List.length_pos.mpr hc, hl, ha⟩
  · rintro ⟨-, hl, ha⟩
    rw [← jsLength_of_alnum c ha] at hl
    exact ⟨sentinel_not_alnum c ha, hl, hc, ha⟩

theorem formatResult_default_some {c : Str} (hc : c ≠ []) :
    formatResult false (some c) =
      if MatchesCaptchaPattern c then (toUpperCase c, "captcha".toList)
      else if c ≠ sentinel then (cleanup c, "text".toList)
      else (c, "text".toList) := by
  have ho : orElse c sentinel = c := by simp [orElse, hc]
  simp only [formatResult, Option.getD_some, ho, captcha_guard_iff hc, if_true]

theorem advancedMode_eq_true (req : Request) :
    advancedMode req = true ↔ req.advancedMode = some "true".toList := by
  simp [advancedMode]

theorem advancedMode_eq_false (req : Request) :
    advancedMode req = false ↔ req.advancedMode ≠ some "true".toList := by
  simp [advancedMode]

theorem formatResult_advanced (content : Option Str) :
    formatResult true content = (orElse (content.getD []) sentinel, "text".toList) := by
  simp [formatResult]

theorem formatResult_missing (advanced : Bool) {content : Option Str}
    (h : content = none ∨ content = some []) :
    formatResult advanced content = (sentinel, "text".toList) := by
  have ho : orElse (content.getD []) sentinel = sentinel := by
    rcases h with h | h <;> simp [h, orElse]
  simp [formatResult, ho]

theorem not_matchesCaptchaPattern {c : Str}
    (h : 10 < c.length ∨ ∃ x ∈ c, isAlnum x = false) : ¬MatchesCaptchaPattern c := by
  rintro ⟨-, hl, ha⟩
  rcases h with h | ⟨x, hx, hx'⟩
  · omega
  · rw [ha x hx] at hx'
    exact absurd hx' (by decide)

/-! ## The claims about the classification step -/

/-- C1, as stated, fails: a request in advanced mode reaches the classification step
with the answer `ab12` (non-failure, four characters, letters and digits only), and the
response has type `text` and the result `ab12`, not type `captcha` and `AB12`. -/
theorem c1_advanced_mode_counterexample :
    advancedRequest.advancedMode = some "true".toList ∧
      "ab12".toList ≠ [] ∧ "ab12".toList ≠ sentinel ∧ "ab12".toList.length ≤ 10 ∧
      (∀ x ∈ "ab12".toList, isAlnum x = true) ∧
      (recognizeImage (answering (some "ab12".toList)) "abc".toList "img-1".toList
        advancedRequest).1 = ⟨200, .recognized "ab12".toList "text".toList⟩ ∧
      (recognizeImage (answering (some "ab12".toList)) "abc".toList "img-1".toList
        advancedRequest).1 ≠ ⟨200, .recognized "AB12".toList "captcha".toList⟩ := by
  refine ⟨rfl, by decide, by decide, by decide, by decide, ?_, ?_⟩
  · rw [@recognizeImage_ok _ _ _ _ ⟨true, 200, "OK".toList, [], .ok ⟨some "file-1".toList,
      some "ab12".toList⟩⟩ _ rfl rfl rfl]
    rfl
  · rw [@recognizeImage_ok _ _ _ _ ⟨true, 200, "OK".toList, [], .ok ⟨some "file-1".toList,
      some "ab12".toList⟩⟩ _ rfl rfl rfl]
    decide

/-- C1, amended: in default mode (the header `x-advanced-mode` is not `true`), for
every answer `c` of the chat-completion endpoint that is non-empty, at most 10
characters long and made only of ASCII letters and digits, the response has status
200, type `captcha` and the result `c` with every letter uppercased. -/
theorem c1_captcha_in_default_mode (w : World) (token imageId : Str) (req : Request)
    (reply : Reply) (data : Data) (c : Str)
    (hmode : req.advancedMode ≠ some "true".toList)
    (hf : w.fetch (chatCall w token imageId req) = .ok reply) (hok : reply.ok = true)
    (hj : reply.json = .ok data) (hcontent : data.content = some c)
    (hne : c ≠ []) (hlen : c.length ≤ 10) (halnum : ∀ x ∈ c, isAlnum x = true) :
    (recognizeImage w token imageId req).1 =
      ⟨200, .recognized (c.map Char.toUpper) "captcha".toList⟩ := by
  rw [recognizeImage_ok hf hok hj, hcontent, (advancedMode_eq_false req).mpr hmode,
    formatResult_default_some hne,
    if_pos (show MatchesCaptchaPattern c from ⟨List.length_pos.mpr hne, hlen, halnum⟩)]
  rfl

/-- Witness of C1, amended: the answer `ab12` in default mode. -/
theorem c1_captcha_in_default_mode_witness :
    (recognizeImage (answering (some "ab12".toList)) "abc".toList "img-1".toList
      plainRequest).1 = ⟨200, .recognized ("ab12".toList.map Char.toUpper) "captcha".toList⟩ :=
  c1_captcha_in_default_mode (answering (some "ab12".toList)) "abc".toList "img-1".toList
    plainRequest ⟨true, 200, "OK".toList, [], .ok ⟨some "file-1".toList, some "ab12".toList⟩⟩
    ⟨some "file-1".toList, some "ab12".toList⟩ "ab12".toList (by decide) rfl rfl rfl rfl
    (by decide) (by decide) (by decide)

/-- C7: for every request whose header `x-advanced-mode` equals `true`, with or
without a custom prompt, and every successful reply of the chat-completion endpoint,
the response has status 200 and type `text`, and its result is the answer `c` itself
when there is a non-empty one, the sentinel when the answer is missing or empty. -/
theorem c7_advanced_mode_unformatted (w : World) (token imageId : Str) (req : Request)
    (reply : Reply) (data : Data)
    (hmode : req.advancedMode = some "true".toList)
    (hf : w.fetch (chatCall w token imageId req) = .ok reply) (hok : reply.ok = true)
    (hj : reply.json = .ok data) :
    (∀ c, data.content = some c → c ≠ [] →
      (recognizeImage w token imageId req).1 = ⟨200, .recognized c "text".toList⟩) ∧
    (data.content = none ∨ data.content = some [] →
      (recognizeImage w token imageId req).1 =
        ⟨200, .recognized sentinel "text".toList⟩) := by
  rw [recognizeImage_ok hf hok hj, (advancedMode_eq_true req).mpr hmode,
    formatResult_advanced]
  refine ⟨fun c hc hne => ?_, fun h => ?_⟩
  · simp [hc, orElse, hne]
  · rcases h with h | h <;> simp [h, orElse]

/-- Witness of C7: the answer `ab12 $ x` in advanced mode comes back unchanged. -/
theorem c7_advanced_mode_unformatted_witness :
    (recognizeImage (answering (some "ab12 $ x".toList)) "abc".toList "img-1".toList
      advancedRequest).1 = ⟨200, .recognized "ab12 $ x".toList "text".toList⟩ :=
  (c7_advanced_mode_unformatted (answering (some "ab12 $ x".toList)) "abc".toList
    "img-1".toList advancedRequest
    ⟨true, 200, "OK".toList, [], .ok ⟨some "file-1".toList, some "ab12 $ x".toList⟩⟩
    ⟨some "file-1".toList, some "ab12 $ x".toList⟩ rfl rfl rfl rfl).1 _ rfl (by decide)

/-- C9: when the chat-completion call succeeds and its JSON has no
`choices[0].message.content`, or an empty one, the response in default and in
advanced mode alike has status 200 and the body with `success: true`, the sentinel as
result, unchanged, and type `text`. -/
theorem c9_missing_answer_is_success (w : World) (token imageId : Str) (req : Request)
    (reply : Reply) (data : Data)
    (hf : w.fetch (chatCall w token imageId req) = .ok reply) (hok : reply.ok = true)
    (hj : reply.json = .ok data)
    (hcontent : data.content = none ∨ data.content = some []) :
    (recognizeImage w token imageId req).1 =
      ⟨200, .recognized "识别失败".toList "text".toList⟩ := by
  rw [recognizeImage_ok hf hok hj, formatResult_missing _ hcontent]
  rfl

/-- Witness of C9: a missing answer in default mode, an empty one in advanced mode. -/
theorem c9_missing_answer_is_success_witness :
    (recognizeImage (answering none) "abc".toList "img-1".toList plainRequest).1 =
        ⟨200, .recognized "识别失败".toList "text".toList⟩ ∧
      (recognizeImage (answering (some [])) "abc".toList "img-1".toList advancedRequest).1 =
        ⟨200, .recognized "识别失败".toList "text".toList⟩ :=
  ⟨c9_missing_answer_is_success (answering none) "abc".toList "img-1".toList plainRequest
      ⟨true, 200, "OK".toList, [], .ok ⟨some "file-1".toList, none⟩⟩
      ⟨some "file-1".toList, none⟩ rfl rfl rfl (Or.inl rfl),
    c9_missing_answer_is_success (answering (some [])) "abc".toList "img-1".toList
      advancedRequest ⟨true, 200, "OK".toList, [], .ok ⟨some "file-1".toList, some []⟩⟩
      ⟨some "file-1".toList, some []⟩ rfl rfl rfl (Or.inr rfl)⟩

/-- C8: in default mode the type of the response is `captcha` exactly when the raw
answer `c` matches `^[A-Za-z0-9]{1,10}$`, and then the result has the length of `c`
and consists of the characters `A`-`Z` and `0`-`9` only. -/
theorem c8_captcha_iff_pattern (w : World) (token imageId : Str) (req : Request)
    (reply : Reply) (data : Data) (c : Str)
    (hmode : req.advancedMode ≠ some "true".toList)
    (hf : w.fetch (chatCall w token imageId req) = .ok reply) (hok : reply.ok = true)
    (hj : reply.json = .ok data) (hcontent : data.content = some c) :
    ∃ result type, (recognizeImage w token imageId req).1 = ⟨200, .recognized result type⟩ ∧
      (type = "captcha".toList ↔ MatchesCaptchaPattern c) ∧
      (type = "captcha".toList →
        result.length = c.length ∧ ∀ x ∈ result, isUpperOrDigit x = true) := by
  rw [recognizeImage_ok hf hok hj, hcontent, (advancedMode_eq_false req).mpr hmode]
  refine ⟨_, _, rfl, ?_⟩
  have hne : "text".toList ≠ "captcha".toList := by decide
  by_cases hc : c = []
  · subst hc
    rw [formatResult_missing _ (Or.inr rfl)]
    refine ⟨⟨fun h => absurd h hne, fun h => ?_⟩, fun h => absurd h hne⟩
    have := h.1
    simp at this
  · rw [formatResult_default_some hc]
    by_cases hm : MatchesCaptchaPattern c
    · rw [if_pos hm]
      refine ⟨⟨fun _ => hm, fun _ => rfl⟩, fun _ => ⟨by simp [toUpperCase], fun x hx => ?_⟩⟩
      simp only [toUpperCase, List.mem_map] at hx
      obtain ⟨y, hy, rfl⟩ := hx
      exact isUpperOrDigit_toUpper (hm.2.2 y hy)
    · rw [if_neg hm]
      split
      · exact ⟨⟨fun h => absurd h hne, fun h => absurd h hm⟩, fun h => absurd h hne⟩
      · exact ⟨⟨fun h => absurd h hne, fun h => absurd h hm⟩, fun h => absurd h hne⟩

/-- Witness of C8: an answer of ten letters and digits in default mode. -/
theorem c8_captcha_iff_pattern_witness :
    ∃ result type,
      (recognizeImage (answering (some "abcde12345".toList)) "abc".toList "img-1".toList
        plainRequest).1 = ⟨200, .recognized result type⟩ ∧
      (type = "captcha".toList ↔ MatchesCaptchaPattern "abcde12345".toList) ∧
      (type = "captcha".toList →
        result.length = "abcde12345".toList.length ∧
          ∀ x ∈ result, isUpperOrDigit x = true) :=
  c8_captcha_iff_pattern (answering (some "abcde12345".toList)) "abc".toList "img-1".toList
    plainRequest
    ⟨true, 200, "OK".toList, [], .ok ⟨some "file-1".toList, some "abcde12345".toList⟩⟩
    ⟨some "file-1".toList, some "abcde12345".toList⟩ "abcde12345".toList (by decide)
    rfl rfl rfl rfl

/-- C2: in default mode, for every answer `c` that is non-failure and not a captcha
(more than 10 characters, or some character that is no ASCII letter or digit), the
response has status 200 and type `text`, and its result has no backslash directly
before `（` or `）`, no three newlines in a row, no whitespace directly after or
before a dollar sign, and no whitespace at its start or end. -/
theorem c2_text_cleanups (w : World) (token imageId : Str) (req : Request)
    (reply : Reply) (data : Data) (c : Str)
    (hmode : req.advancedMode ≠ some "true".toList)
    (hf : w.fetch (chatCall w token imageId req) = .ok reply) (hok : reply.ok = true)
    (hj : reply.json = .ok data) (hcontent : data.content = some c)
    (hne : c ≠ []) (hsentinel : c ≠ "识别失败".toList)
    (htext : 10 < c.length ∨ ∃ x ∈ c, isAlnum x = false) :
    ∃ r, (recognizeImage w token imageId req).1 = ⟨200, .recognized r "text".toList⟩ ∧
      ¬ ['\\', '（'] <:+: r ∧ ¬ ['\\', '）'] <:+: r ∧
      ¬ ['\n', '\n', '\n'] <:+: r ∧
      (∀ x, isWs x = true → ¬ ['$', x] <:+: r) ∧
      (∀ x, isWs x = true → ¬ [x, '$'] <:+: r) ∧
      (∀ x ∈ r.head?, isWs x = false) ∧ (∀ x ∈ r.getLast?, isWs x = false) := by
  rw [recognizeImage_ok hf hok hj, hcontent, (advancedMode_eq_false req).mpr hmode,
    formatResult_default_some hne, if_neg (not_matchesCaptchaPattern htext),
    if_pos (show c ≠ sentinel from hsentinel)]
  exact ⟨cleanup c, rfl, cleanup_clean c⟩

/-- Witness of C2: an answer with an escaped bracket, four newlines and spaces around dollar signs. -/
theorem c2_text_cleanups_witness :
    ∃ r, (recognizeImage (answering (some "a \\（b\n\n\n\n$ x $ ".toList)) "abc".toList
        "img-1".toList plainRequest).1 = ⟨200, .recognized r "text".toList⟩ ∧
      ¬ ['\\', '（'] <:+: r ∧ ¬ ['\\', '）'] <:+: r ∧
      ¬ ['\n', '\n', '\n'] <:+: r ∧
      (∀ x, isWs x = true → ¬ ['$', x] <:+: r) ∧
      (∀ x, isWs x = true → ¬ [x, '$'] <:+: r) ∧
      (∀ x ∈ r.head?, isWs x = false) ∧ (∀ x ∈ r.getLast?, isWs x = false) :=
  c2_text_cleanups (answering (some "a \\（b\n\n\n\n$ x $ ".toList)) "abc".toList
    "img-1".toList plainRequest
    ⟨true, 200, "OK".toList, [],
      .ok ⟨some "file-1".toList, some "a \\（b\n\n\n\n$ x $ ".toList⟩⟩
    ⟨some "file-1".toList, some "a \\（b\n\n\n\n$ x $ ".toList⟩
    "a \\（b\n\n\n\n$ x $ ".toList (by decide) rfl rfl rfl rfl (by decide) (by decide)
    (Or.inl (by decide))

/-! ## The two bracket replacements as one pass -/

theorem matchEscaped_miss {p c : Char} {rest : Str}
    (h : ¬(c = '\\' ∧ rest.head? = some p)) : ∀ n, matchEscaped p (c :: rest) ≠ some (n + 1) := by
  intro n hn
  obtain ⟨hc, -, t, ht⟩ := matchEscaped_some hn
  exact h ⟨hc, by rw [ht]; rfl⟩

theorem head?_replaceEscaped (p q : Char) (s : Str) :
    (replaceAll (matchEscaped p) ['\\', q] s).head? = s.head? :=
  head?_replaceAll (fun c rest n h => by rw [(matchEscaped_some h).1]; rfl) s

theorem replaceEscaped_twice : ∀ s : Str,
    replaceAll (matchEscaped '）') ['\\', ')'] (replaceAll (matchEscaped '（') ['\\', '('] s)
      = normalizeBrackets s
  | [] => by simp [replaceAll_nil, normalizeBrackets]
  | [c] => by
    rw [replaceAll_miss (matchEscaped_miss (by simp)), replaceAll_nil,
      replaceAll_miss (matchEscaped_miss (by simp)), replaceAll_nil, normalizeBrackets]
  | c :: d :: rest => by
    have ih1 := replaceEscaped_twice rest
    have ih2 := replaceEscaped_twice (d :: rest)
    rw [normalizeBrackets]
    by_cases h1 : c = '\\' ∧ d = '（'
    · rw [if_pos h1]
      have hit : matchEscaped '（' (c :: d :: rest) = some (1 + 1) := by
        simp [matchEscaped, h1]
      rw [replaceAll_hit hit]
      simp only [List.drop_succ_cons, List.drop_zero, List.cons_append, List.nil_append]
      have e2 : ∀ t : Str, replaceAll (matchEscaped '）') ['\\', ')'] ('\\' :: '(' :: t)
          = '\\' :: '(' :: replaceAll (matchEscaped '）') ['\\', ')'] t := fun t => by
        rw [replaceAll_miss (matchEscaped_miss (by simp)),
          replaceAll_miss (matchEscaped_miss (by simp))]
      rw [e2, ih1]
    · rw [if_neg h1]
      by_cases h2 : c = '\\' ∧ d = '）'
      · rw [if_pos h2]
        obtain ⟨hc, hd⟩ := h2
        subst hc hd
        have e1 : replaceAll (matchEscaped '（') ['\\', '('] ('\\' :: '）' :: rest)
            = '\\' :: '）' :: replaceAll (matchEscaped '（') ['\\', '('] rest := by
          rw [replaceAll_miss (matchEscaped_miss (by simp)),
            replaceAll_miss (matchEscaped_miss (by simp))]
        have hit : matchEscaped '）'
            ('\\' :: '）' :: replaceAll (matchEscaped '（') ['\\', '('] rest) = some (1 + 1) := by
          simp [matchEscaped]
        rw [e1, replaceAll_hit hit]
        simp only [List.drop_succ_cons, List.drop_zero, List.cons_append, List.nil_append]
        rw [ih1]
      · rw [if_neg h2]
        have e1 : replaceAll (matchEscaped '（') ['\\', '('] (c :: d :: rest)
            = c :: replaceAll (matchEscaped '（') ['\\', '('] (d :: rest) :=
          replaceAll_miss (matchEscaped_miss (by simpa using h1))
        rw [e1, replaceAll_miss (matchEscaped_miss (by
            rw [head?_replaceEscaped]
            simpa using h2)), ih2]

/-- C10: on the text branch of default mode, deleting all whitespace from the result
gives the same string as deleting all whitespace from the answer `c` after replacing
each backslash+`（` by backslash+`(` and each backslash+`）` by backslash+`)`; and the
result is not longer than `c`, in characters and in UTF-16 code units. -/
theorem c10_cleanup_changes_whitespace_only (w : World) (token imageId : Str)
    (req : Request) (reply : Reply) (data : Data) (c : Str)
    (hmode : req.advancedMode ≠ some "true".toList)
    (hf : w.fetch (chatCall w token imageId req) = .ok reply) (hok : reply.ok = true)
    (hj : reply.json = .ok data) (hcontent : data.content = some c)
    (hne : c ≠ []) (hsentinel : c ≠ "识别失败".toList)
    (htext : 10 < c.length ∨ ∃ x ∈ c, isAlnum x = false) :
    ∃ r, (recognizeImage w token imageId req).1 = ⟨200, .recognized r "text".toList⟩ ∧
      deleteWhitespace r = deleteWhitespace (normalizeBrackets c) ∧
      r.length ≤ c.length ∧ jsLength r ≤ jsLength c := by
  rw [recognizeImage_ok hf hok hj, hcontent, (advancedMode_eq_false req).mpr hmode,
    formatResult_default_some hne, if_neg (not_matchesCaptchaPattern htext),
    if_pos (show c ≠ sentinel from hsentinel)]
  refine ⟨cleanup c, rfl, ?_, length_cleanup c, jsLength_cleanup c⟩
  rw [deleteWhitespace_cleanup, replaceEscaped_twice]

/-- Witness of C10: an answer with an escaped bracket, three newlines and a space after a dollar sign. -/
theorem c10_cleanup_changes_whitespace_only_witness :
    ∃ r, (recognizeImage (answering (some " x \\）\n\n\n$ y".toList)) "abc".toList
        "img-1".toList plainRequest).1 = ⟨200, .recognized r "text".toList⟩ ∧
      deleteWhitespace r = deleteWhitespace (normalizeBrackets " x \\）\n\n\n$ y".toList) ∧
      r.length ≤ " x \\）\n\n\n$ y".toList.length ∧
      jsLength r ≤ jsLength " x \\）\n\n\n$ y".toList :=
  c10_cleanup_changes_whitespace_only (answering (some " x \\）\n\n\n$ y".toList))
    "abc".toList "img-1".toList plainRequest
    ⟨true, 200, "OK".toList, [], .ok ⟨some "file-1".toList, some " x \\）\n\n\n$ y".toList⟩⟩
    ⟨some "file-1".toList, some " x \\）\n\n\n$ y".toList⟩
    " x \\）\n\n\n$ y".toList (by decide) rfl rfl rfl rfl (by decide) (by decide)
    (Or.inr ⟨' ', by decide, by decide⟩)

/-! ## The prompt -/

theorem recognizeImage_calls (w : World) (token imageId : Str) (req : Request) :
    (recognizeImage w token imageId req).2 = [chatCall w token imageId req] := by
  unfold recognizeImage
  simp only
  split
  · rfl
  · split
    · rfl
    · split <;> rfl

theorem customPrompt_eq_suppliedPrompt (w : World) (req : Request)
    (hdec : w.base64Decode [] = []) : customPrompt w req = suppliedPrompt w req := by
  unfold customPrompt suppliedPrompt
  cases h : req.customPrompt with
  | none => rfl
  | some e =>
    cases e with
    | nil => simp [hdec]
    | cons a t => rfl

/-- C3: `recognizeImage` sends one request to the chat-completion endpoint, and its
text prompt is the custom prompt (the decoded header `x-custom-prompt`) when the header
`x-advanced-mode` equals `true` and the custom prompt is not empty, the fixed
`defaultPrompt` in every other case. Decoding the empty string gives the empty
string. -/
theorem c3_prompt_selection (w : World) (token imageId : Str) (req : Request)
    (hdec : w.base64Decode [] = []) :
    ∃ cookie, (recognizeImage w token imageId req).2 =
      [.chat token cookie
        (if req.advancedMode = some "true".toList ∧ suppliedPrompt w req ≠ []
          then suppliedPrompt w req else defaultPrompt) imageId] := by
  refine ⟨orElse (req.cookie.getD []) [], ?_⟩
  rw [recognizeImage_calls, chatCall, finalPrompt, customPrompt_eq_suppliedPrompt w req hdec]
  simp only [advancedMode_eq_true]

/-- Witness of C3: a request in advanced mode with a custom prompt, in a world whose decoding is the identity. -/
theorem c3_prompt_selection_witness :
    ∃ cookie, (recognizeImage (answering none) "abc".toList "img-1".toList
        advancedRequest).2 =
      [.chat "abc".toList cookie
        (if advancedRequest.advancedMode = some "true".toList ∧
            suppliedPrompt (answering none) advancedRequest ≠ []
          then suppliedPrompt (answering none) advancedRequest else defaultPrompt)
        "img-1".toList] :=
  c3_prompt_selection (answering none) "abc".toList "img-1".toList advancedRequest rfl

/-! ## Missing input -/

theorem truthy_eq_false {v : Option Str} (h : v = none ∨ v = some []) : truthy v = false := by
  rcases h with h | h <;> rw [h] <;> rfl

theorem cookie_empty {req : Request} (h : req.cookie = none ∨ req.cookie = some []) :
    orElse (req.cookie.getD []) [] = [] := by
  rcases h with h | h <;> simp [h, orElse]

/-- With `req.body` an object: when the header `x-custom-cookie` is absent or empty,
or the body field of the handler is absent or empty, each of
`handleImageUrlRecognition`, `handleBase64Recognition` and `handleFileRecognition`
responds with status 400 and the error `Missing cookie or <field>` and makes no
outbound request; `handleProxyUpload` without an uploaded file responds with status
400 and the error `No file uploaded` and makes no outbound request, whatever
`req.body` is. -/
theorem missing_input_badRequest (w : World) (req : Request) :
    (∀ body, req.body = some body →
      (req.cookie = none ∨ req.cookie = some []) ∨
        (body.imageUrl = none ∨ body.imageUrl = some []) →
      handleImageUrlRecognition w req =
        (⟨400, .error "Missing cookie or imageUrl".toList⟩, [])) ∧
    (∀ body, req.body = some body →
      (req.cookie = none ∨ req.cookie = some []) ∨
        (body.base64Image = none ∨ body.base64Image = some []) →
      handleBase64Recognition w req =
        (⟨400, .error "Missing cookie or base64Image".toList⟩, [])) ∧
    (∀ body, req.body = some body →
      (req.cookie = none ∨ req.cookie = some []) ∨
        (body.imageId = none ∨ body.imageId = some []) →
      handleFileRecognition w req =
        (⟨400, .error "Missing cookie or imageId".toList⟩, [])) ∧
    (req.file = none →
      handleProxyUpload w req = (⟨400, .error "No file uploaded".toList⟩, [])) := by
  refine ⟨fun body hb h => ?_, fun body hb h => ?_, fun body hb h => ?_, fun h => ?_⟩
  · unfold handleImageUrlRecognition
    simp only [hb]
    rw [if_pos (h.imp cookie_empty truthy_eq_false)]
    rfl
  · unfold handleBase64Recognition
    simp only [hb]
    rw [if_pos (h.imp cookie_empty truthy_eq_false)]
    rfl
  · unfold handleFileRecognition
    simp only [hb]
    rw [if_pos (h.imp cookie_empty truthy_eq_false)]
    rfl
  · unfold handleProxyUpload
    rw [h]
    rfl

/-- C5, the divergence: a request with its cookie and without a body leaves `req.body`
undefined, so the body field of each handler is absent; `handleImageUrlRecognition`,
`handleBase64Recognition` and `handleFileRecognition` make no outbound request but
respond through their `catch` block, with status 500 whatever the world; with the
message V8 gives the `TypeError` the error is `Cannot destructure property ...`, not
`Missing cookie or <field>` with status 400. -/
theorem c5_bodyless_request_answers_500 :
    bodylessRequest.body = none ∧
      (∀ w : World,
        (handleImageUrlRecognition w bodylessRequest).1.status = 500 ∧
        (handleBase64Recognition w bodylessRequest).1.status = 500 ∧
        (handleFileRecognition w bodylessRequest).1.status = 500 ∧
        (handleImageUrlRecognition w bodylessRequest).2 = [] ∧
        (handleBase64Recognition w bodylessRequest).2 = [] ∧
        (handleFileRecognition w bodylessRequest).2 = []) ∧
      handleImageUrlRecognition (answering none) bodylessRequest =
        (⟨500, .error
          "Cannot destructure property 'imageUrl' of 'req.body' as it is undefined.".toList⟩,
          []) ∧
      handleBase64Recognition (answering none) bodylessRequest =
        (⟨500, .error
          "Cannot destructure property 'base64Image' of 'req.body' as it is undefined.".toList⟩,
          []) ∧
      handleFileRecognition (answering none) bodylessRequest =
        (⟨500, .error
          "Cannot destructure property 'imageId' of 'req.body' as it is undefined.".toList⟩,
          []) := by
  refine ⟨rfl, fun w => ⟨rfl, rfl, rfl, rfl, rfl, rfl⟩, ?_, ?_, ?_⟩ <;> decide

/-! ## The token -/

/-- C4, the divergence: the cookie `csrf_token=abc` has no token field, yet no handler
answers with status 400; each goes on with `abc` as bearer token. In a world where
every call succeeds and the model answers `ab12`, the four handlers respond with
status 200 after their requests to the remote service; and whatever the world,
`handleFileRecognition` sends its chat request with the bearer token `abc`. -/
theorem c4_token_from_other_field :
    hasTokenField "csrf_token=abc".toList = false ∧
      tokenMatch "csrf_token=abc".toList = some "abc".toList ∧
      (∀ w : World, (handleFileRecognition w otherFieldRequest).2 =
        [.chat "abc".toList "csrf_token=abc".toList defaultPrompt "img-1".toList]) ∧
      handleFileRecognition (answering (some "ab12".toList)) otherFieldRequest =
        (⟨200, .recognized "AB12".toList "captcha".toList⟩,
          [.chat "abc".toList "csrf_token=abc".toList defaultPrompt "img-1".toList]) ∧
      handleImageUrlRecognition (answering (some "ab12".toList)) otherFieldRequest =
        (⟨200, .recognized "AB12".toList "captcha".toList⟩,
          [.download "http://host/image.png".toList,
            .upload "abc".toList "csrf_token=abc".toList "http://host/image.png".toList,
            .chat "abc".toList "csrf_token=abc".toList defaultPrompt "file-1".toList]) ∧
      handleBase64Recognition (answering (some "ab12".toList)) otherFieldRequest =
        (⟨200, .recognized "AB12".toList "captcha".toList⟩,
          [.upload "abc".toList "csrf_token=abc".toList "aGVsbG8=".toList,
            .chat "abc".toList "csrf_token=abc".toList defaultPrompt "file-1".toList]) ∧
      handleProxyUpload (answering (some "ab12".toList)) otherFieldRequest =
        (⟨200, .forwarded ⟨some "file-1".toList, some "ab12".toList⟩⟩,
          [.upload "abc".toList "csrf_token=abc".toList "image.png".toList]) := by
  refine ⟨by decide, by decide, fun w => ?_, ?_, ?_, ?_, ?_⟩
  · have ht : tokenMatch "csrf_token=abc".toList = some "abc".toList := by decide
    have hc : orElse (otherFieldRequest.cookie.getD []) [] = "csrf_token=abc".toList := by decide
    have hb : otherFieldRequest.body = some ⟨some "http://host/image.png".toList,
        some "aGVsbG8=".toList, some "img-1".toList⟩ := rfl
    unfold handleFileRecognition
    simp only [hb, hc, ht]
    rw [if_neg (by decide), if_neg (by decide), recognizeImage_calls]
    rfl
  · rfl
  · rfl
  · rfl
  · rfl

/-! ## Failures of the remote service -/

theorem reportsFailure_error (pre : Str) (reply : Reply) :
    ReportsFailure
      ⟨500, .error (pre ++ ": ".toList ++ reply.statusText ++ " - ".toList ++ reply.text)⟩
      pre reply :=
  ⟨rfl, rfl, ⟨_, rfl, List.suffix_append _ _ |>.isInfix⟩, fun _ _ h => by cases h⟩

theorem reportsFailure_failure (pre : Str) (reply : Reply) :
    ReportsFailure
      ⟨500, .failure (pre ++ ": ".toList ++ reply.statusText ++ " - ".toList ++ reply.text)⟩
      pre reply :=
  ⟨rfl, rfl, ⟨_, rfl, List.suffix_append _ _ |>.isInfix⟩, fun _ _ h => by cases h⟩

theorem handlerFailed_upstream (pre s e fallback : Str) (hpre : pre ≠ []) :
    handlerFailed (pre ++ ": ".toList ++ s ++ " - ".toList ++ e) fallback =
      ⟨500, .error (pre ++ ": ".toList ++ s ++ " - ".toList ++ e)⟩ := by
  simp [handlerFailed, orElse, hpre]

theorem recognizeImage_failed {w : World} {token imageId : Str} {req : Request}
    {reply : Reply} (hf : w.fetch (chatCall w token imageId req) = .ok reply)
    (hok : reply.ok = false) :
    (recognizeImage w token imageId req).1 =
      ⟨500, .failure ("Qwen API request failed".toList ++ ": ".toList ++ reply.statusText ++
        " - ".toList ++ reply.text)⟩ := by
  simp [recognizeImage, hf, hok, recognitionFailed, orElse]

theorem recognizeImage_reportsFailure {w : World} {token imageId : Str} {req : Request}
    {call : Call} {reply : Reply} (hr : w.fetch call = .ok reply) (hok : reply.ok = false)
    (hmem : call ∈ (recognizeImage w token imageId req).2) :
    failurePrefix false call = some "Qwen API request failed".toList ∧
      failurePrefix true call = some "Qwen API request failed".toList ∧
      ReportsFailure (recognizeImage w token imageId req).1
        "Qwen API request failed".toList reply := by
  rw [recognizeImage_calls, List.mem_singleton] at hmem
  subst hmem
  rw [recognizeImage_failed hr hok]
  exact ⟨rfl, rfl, reportsFailure_failure _ reply⟩

theorem uploadAndRecognize_reportsFailure {w : World} {token cookie payload : Str}
    {req : Request} {before : List Call} {call : Call} {reply : Reply} {pre : Str}
    (hbefore : ∀ k ∈ before, failurePrefix false k = none)
    (hr : w.fetch call = .ok reply) (hok : reply.ok = false)
    (hpre : failurePrefix false call = some pre)
    (hmem : call ∈ (uploadAndRecognize w token cookie payload req before).2) :
    ReportsFailure (uploadAndRecognize w token cookie payload req before).1 pre reply := by
  have hnb : call ∉ before := fun h => by
    rw [hbefore call h] at hpre
    exact absurd hpre (by simp)
  have hmem' : ∀ {l : List Call}, call ∈ before ++ [Call.upload token cookie payload] ++ l →
      call = .upload token cookie payload ∨ call ∈ l := by
    intro l h
    simp only [List.mem_append, List.mem_singleton, hnb, false_or] at h
    exact h
  have hself : ∀ {up : Reply}, w.fetch (.upload token cookie payload) = .ok up →
      call = .upload token cookie payload → up = reply := by
    intro up hu hc
    rw [← hc, hr] at hu
    injection hu with hu
    exact hu.symm
  have hupload : ∀ {t c p : Str}, call = .upload t c p → pre = "File upload failed".toList := by
    intro t c p hc
    rw [hc] at hpre
    simp only [failurePrefix, Bool.false_eq_true, if_false, Option.some.injEq] at hpre
    exact hpre.symm
  unfold uploadAndRecognize at hmem ⊢
  cases hu : w.fetch (.upload token cookie payload) with
  | error msg =>
    simp only [hu] at hmem
    have hc := (hmem' (l := []) (by simpa using hmem)).resolve_right (by simp)
    rw [← hc, hr] at hu
    exact absurd hu (by simp)
  | ok up =>
    simp only [hu] at hmem ⊢
    by_cases hupok : up.ok = false
    · rw [if_pos hupok] at hmem ⊢
      have hc := (hmem' (l := []) (by simpa using hmem)).resolve_right (by simp)
      have := hself hu hc
      subst this
      have hA : "File upload failed: ".toList = "File upload failed".toList ++ ": ".toList := by
        decide
      rw [hupload hc, hA, handlerFailed_upstream _ _ _ _ (by decide)]
      exact reportsFailure_error _ up
    · rw [if_neg hupok] at hmem ⊢
      have hnot : call ≠ .upload token cookie payload := fun hc => by
        have := hself hu hc
        subst this
        exact hupok hok
      cases hjs : up.json with
      | error msg =>
        simp only [hjs] at hmem
        exact absurd ((hmem' (l := []) (by simpa using hmem)).resolve_right (by simp)) hnot
      | ok data =>
        simp only [hjs] at hmem ⊢
        split at hmem
        · next a t hid =>
          have hm := (hmem' hmem).resolve_left hnot
          obtain ⟨h1, -, h3⟩ := recognizeImage_reportsFailure hr hok hm
          rw [h1] at hpre
          injection hpre with hpre
          subst hpre
          exact h3
        · exact absurd ((hmem' (l := []) (by simpa using hmem)).resolve_right (by simp)) hnot

/-- C6: when a call a handler made to the remote service (the upload to the file
endpoint or the chat completion) came back with a non-ok status, status text `s` and
body text `e`, the response of the handler has status 500, its field `error` is
`<prefix>: s - e` and so contains `e`, and it is no recognition result; the prefix is
`File upload failed` for the upload of `handleImageUrlRecognition` and
`handleBase64Recognition`, `Proxy upload failed` for that of `handleProxyUpload`, and
`Qwen API request failed` for the chat completion. -/
theorem c6_upstream_failure (w : World) (req : Request) (call : Call) (reply : Reply)
    (pre : Str) (hr : w.fetch call = .ok reply) (hok : reply.ok = false) :
    (failurePrefix false call = some pre → call ∈ (handleImageUrlRecognition w req).2 →
      ReportsFailure (handleImageUrlRecognition w req).1 pre reply) ∧
    (failurePrefix false call = some pre → call ∈ (handleBase64Recognition w req).2 →
      ReportsFailure (handleBase64Recognition w req).1 pre reply) ∧
    (failurePrefix false call = some pre → call ∈ (handleFileRecognition w req).2 →
      ReportsFailure (handleFileRecognition w req).1 pre reply) ∧
    (failurePrefix true call = some pre → call ∈ (handleProxyUpload w req).2 →
      ReportsFailure (handleProxyUpload w req).1 pre reply) := by
  refine ⟨fun hpre hmem => ?_, fun hpre hmem => ?_, fun hpre hmem => ?_, fun hpre hmem => ?_⟩
  · have hdl : ∀ url : Str, call ∈ [Call.download url] → False := fun url h => by
      rw [List.mem_singleton.mp h] at hpre
      exact absurd hpre (by simp [failurePrefix])
    unfold handleImageUrlRecognition at hmem ⊢
    obtain ⟨body, hb⟩ : ∃ body, req.body = some body := by
      cases hb : req.body with
      | none =>
        simp only [hb] at hmem
        exact absurd hmem (by simp)
      | some body => exact ⟨body, rfl⟩
    simp only [hb] at hmem ⊢
    by_cases hv : orElse (req.cookie.getD []) [] = [] ∨ truthy body.imageUrl = false
    · rw [if_pos hv] at hmem
      exact absurd hmem (by simp)
    · rw [if_neg hv] at hmem ⊢
      cases ht : tokenMatch (orElse (req.cookie.getD []) []) with
      | none =>
        simp only [ht] at hmem
        exact absurd hmem (by simp)
      | some token =>
        simp only [ht] at hmem ⊢
        cases hd : w.fetch (.download (body.imageUrl.getD [])) with
        | error msg =>
          simp only [hd] at hmem
          exact (hdl _ hmem).elim
        | ok imageResponse =>
          simp only [hd] at hmem ⊢
          by_cases hi : imageResponse.ok = false
          · rw [if_pos hi] at hmem
            exact (hdl _ hmem).elim
          · rw [if_neg hi] at hmem ⊢
            exact uploadAndRecognize_reportsFailure
              (fun k hk => by rw [List.mem_singleton.mp hk]; rfl) hr hok hpre hmem
  · unfold handleBase64Recognition at hmem ⊢
    obtain ⟨body, hb⟩ : ∃ body, req.body = some body := by
      cases hb : req.body with
      | none =>
        simp only [hb] at hmem
        exact absurd hmem (by simp)
      | some body => exact ⟨body, rfl⟩
    simp only [hb] at hmem ⊢
    by_cases hv : orElse (req.cookie.getD []) [] = [] ∨ truthy body.base64Image = false
    · rw [if_pos hv] at hmem
      exact absurd hmem (by simp)
    · rw [if_neg hv] at hmem ⊢
      cases ht : tokenMatch (orElse (req.cookie.getD []) []) with
      | none =>
        simp only [ht] at hmem
        exact absurd hmem (by simp)
      | some token =>
        simp only [ht] at hmem ⊢
        exact uploadAndRecognize_reportsFailure (fun k hk => absurd hk (by simp)) hr hok hpre
          hmem
  · unfold handleFileRecognition at hmem ⊢
    obtain ⟨body, hb⟩ : ∃ body, req.body = some body := by
      cases hb : req.body with
      | none =>
        simp only [hb] at hmem
        exact absurd hmem (by simp)
      | some body => exact ⟨body, rfl⟩
    simp only [hb] at hmem ⊢
    by_cases hv : orElse (req.cookie.getD []) [] = [] ∨ truthy body.imageId = false
    · rw [if_pos hv] at hmem
      exact absurd hmem (by simp)
    · rw [if_neg hv] at hmem ⊢
      by_cases ht : (tokenMatch (orElse (req.cookie.getD []) [])).getD [] = []
      · simp only [ht, if_true] at hmem
        exact absurd hmem (by simp)
      · simp only [ht, if_false] at hmem ⊢
        obtain ⟨h1, -, h3⟩ := recognizeImage_reportsFailure hr hok hmem
        rw [h1] at hpre
        injection hpre with hpre
        subst hpre
        exact h3
  · unfold handleProxyUpload at hmem ⊢
    cases hfile : req.file with
    | none =>
      simp only [hfile] at hmem
      exact absurd hmem (by simp)
    | some file =>
      simp only [hfile] at hmem ⊢
      by_cases ht : (tokenMatch (orElse (req.cookie.getD []) [])).getD [] = []
      · simp only [ht, if_true] at hmem
        exact absurd hmem (by simp)
      · simp only [ht, if_false] at hmem ⊢
        cases hu : w.fetch (.upload ((tokenMatch (orElse (req.cookie.getD []) [])).getD [])
            (orElse (req.cookie.getD []) []) file) with
        | error msg =>
          simp only [hu] at hmem
          rw [List.mem_singleton.mp hmem, hu] at hr
          exact absurd hr (by simp)
        | ok response =>
          simp only [hu] at hmem ⊢
          have hc : call = .upload ((tokenMatch (orElse (req.cookie.getD []) [])).getD [])
              (orElse (req.cookie.getD []) []) file := by
            split at hmem
            · exact List.mem_singleton.mp hmem
            · split at hmem <;> exact List.mem_singleton.mp hmem
          rw [hc, hu] at hr
          injection hr with hr
          subst hr
          rw [hc] at hpre
          simp only [failurePrefix, if_true, Option.some.injEq] at hpre
          subst hpre
          have hA : "Proxy upload failed: ".toList = "Proxy upload failed".toList ++ ": ".toList := by
            decide
          rw [if_pos hok, hA, handlerFailed_upstream _ _ _ _ (by decide)]
          exact reportsFailure_error _ response

/-- Witness of C6: the upload refused with `401 Unauthorized` in `handleImageUrlRecognition` and in `handleProxyUpload`. -/
theorem c6_upstream_failure_witness :
    ReportsFailure (handleImageUrlRecognition refusing plainRequest).1
        "File upload failed".toList unauthorized ∧
      ReportsFailure (handleProxyUpload refusing plainRequest).1
        "Proxy upload failed".toList unauthorized :=
  ⟨(c6_upstream_failure refusing plainRequest
      (.upload "abc".toList "token=abc".toList "http://host/image.png".toList) unauthorized
      "File upload failed".toList rfl rfl).1 rfl (by decide),
    (c6_upstream_failure refusing plainRequest
      (.upload "abc".toList "token=abc".toList "image.png".toList) unauthorized
      "Proxy upload failed".toList rfl rfl).2.2.2 rfl (by decide)⟩

end OcrQwen
